import Mathlib

/-!
# Sauvegarde monitor: block hasher, carver and fanotify loop

A shallow embedding of `src/monitor/monitor.c` and `src/monitor/m_fanotify.c`.

* C strings are lists of bytes without the terminator.
* Heap blocks that the code hands around by pointer (the digest buffer `a_hash`) live in an
  explicit memory `Mem`; a `GSList *` of such buffers is a list of addresses.
* Everything the operating system or glib decides (file contents, directory listings, what
  `/proc` answers, what `poll` and `read` deliver) is an input of the model.
* The state that the code changes (memory, open descriptors, the metadata queue, the calls
  made) is passed explicitly in a `World`.
-/

namespace Sauvegarde

/-! ## Bytes, memory, glib checksum and input stream -/

/-- A byte string; each element is one byte. -/
abbrev Bytes := List Nat

/-- Address of a heap block. -/
abbrev Ptr := Nat

/-- The message carried by a `GError`. -/
abbrev GError := String

/-- Heap blocks by address: `some b` is a live block holding `b`, `none` a released block. -/
abbrev Mem := List (Option Bytes)

/-- Length in bytes of a hash in binary form (`hashs.h`). -/
def HASH_LEN : Nat := 32

/-- Allocation of a zero-filled block of `n` bytes (glib `g_malloc0`): the new block gets the
next free address. -/
def g_malloc0 (m : Mem) (n : Nat) : Ptr × Mem :=
  (m.length, m ++ [some (List.replicate n 0)])

/-- Content of the block at address `p`; `none` when the block is released or was never
allocated. -/
def Mem.load (m : Mem) (p : Ptr) : Option Bytes :=
  (m[p]?).join

/-- Overwrites the live block at address `p`. -/
def Mem.store (m : Mem) (p : Ptr) (v : Bytes) : Mem :=
  match m.load p with
  | some _ => m.set p (some v)
  | none => m

/-- Modelled from the spec: `free_variable` is declared outside `src/`; the code uses it as
`x = free_variable(x)` on blocks obtained from `g_malloc0`, so it is taken to release the block
(and to return NULL). -/
def free_variable (m : Mem) (p : Ptr) : Mem :=
  m.set p none

/-- Modelled from the spec: `free_list` is declared outside `src/`; the code uses it as
`hash_list = free_list(hash_list)` after a read error, and the spec says that a read error
"yields no hashes", so it is taken to return NULL, the empty list. -/
def free_list (_hash_list : List Ptr) : List Ptr :=
  []

/-- State of a glib `GChecksum`: the bytes fed since creation or since the last reset. -/
structure GChecksum where
  pending : Bytes
deriving DecidableEq, Repr

/-- The call `g_checksum_new(G_CHECKSUM_SHA256)`. -/
def g_checksum_new : GChecksum :=
  ⟨[]⟩

/-- The call `g_checksum_update(checksum, data, length)`. -/
def g_checksum_update (checksum : GChecksum) (data : Bytes) : GChecksum :=
  ⟨checksum.pending ++ data⟩

/-- The call `g_checksum_get_digest(checksum, buffer, &digest_len)`: the digest of everything
fed so far is written into the block `buffer`. `sha256` is the digest function of glib. -/
def g_checksum_get_digest (sha256 : Bytes → Bytes) (checksum : GChecksum) (m : Mem)
    (buffer : Ptr) : Mem :=
  m.store buffer (sha256 checksum.pending)

/-- The call `g_checksum_reset(checksum)`. -/
def g_checksum_reset (_checksum : GChecksum) : GChecksum :=
  ⟨[]⟩

/-- An open file stream: the bytes not yet delivered, and how many more reads succeed before
one reports an error (`none`: no read ever fails). -/
structure GFileInputStream where
  data : Bytes
  fail_after : Option Nat
deriving DecidableEq, Repr

/-- What one `g_input_stream_read` call leaves behind. -/
structure ReadResult where
  read : Int
  buffer : Bytes
  stream : GFileInputStream
  error : Option GError
deriving DecidableEq, Repr

/-- The call `g_input_stream_read(stream, buffer, count, NULL, &error)`: on failure it returns
-1 and sets the error; otherwise it delivers `count` bytes, or what is left of the file when
that is less, into the front of `buffer` and returns their number (0 at end of file). -/
def g_input_stream_read (stream : GFileInputStream) (buffer : Bytes) (count : Nat) :
    ReadResult :=
  match stream.fail_after with
  | some 0 => ⟨-1, buffer, stream, some "read error"⟩
  | fa =>
    let chunk := stream.data.take count
    ⟨chunk.length, chunk ++ buffer.drop chunk.length,
      ⟨stream.data.drop count, fa.map (fun k => k - 1)⟩, none⟩

/-! ## Files and directories as glib reports them -/

/-- A `GFile`: the path it stands for. -/
abbrev GFile := Bytes

/-- The values of `GFileType`. -/
inductive GFileType where
  | G_FILE_TYPE_UNKNOWN
  | G_FILE_TYPE_REGULAR
  | G_FILE_TYPE_DIRECTORY
  | G_FILE_TYPE_SYMBOLIC_LINK
  | G_FILE_TYPE_SPECIAL
  | G_FILE_TYPE_SHORTCUT
  | G_FILE_TYPE_MOUNTABLE
deriving DecidableEq, Repr

/-- The attributes of a `GFileInfo` that the code reads. -/
structure GFileInfo where
  file_type : GFileType
  name : Bytes
  inode : Nat
  owner : Bytes
  group : Bytes
  uid : Nat
  gid : Nat
  atime : Nat
  ctime : Nat
  mtime : Nat
  mode : Nat
  size : Nat
  symlink_target : Option Bytes
deriving DecidableEq, Repr

/-- What the file system answers. `enumerate_children d` is `none` when the directory cannot
be enumerated, else the successive results of `g_file_enumerator_next_file`, where `none`
stands for an entry whose fetch reports an error. `file_read p` is `none` when the file
cannot be opened for reading. -/
structure FileSystem where
  enumerate_children : Bytes → Option (List (Option GFileInfo))
  file_read : Bytes → Option GFileInputStream

/-- The call `g_file_read(a_file, NULL, &error)`: the stream, or NULL with the error set. -/
def g_file_read (fs : FileSystem) (a_file : GFile) :
    Option GFileInputStream × Option GError :=
  match fs.file_read a_file with
  | some stream => (some stream, none)
  | none => (none, some "open error")

/-! ## monitor.c: the block hasher -/

/-- The variables of `calculate_hash_list_for_file` that its loop reads and writes. -/
structure HashLoop where
  stream : GFileInputStream
  buffer : Bytes
  checksum : GChecksum
  hash_list : List Ptr
  read : Int
  error : Option GError
  mem : Mem
deriving DecidableEq, Repr

/-- The loop `while (read != 0 && error == NULL)` of `calculate_hash_list_for_file`, with
`a_hash` the address of the digest buffer. The first argument bounds the number of iterations;
`none` means that the bound was reached with the loop still running. -/
def hash_loop (sha256 : Bytes → Bytes) (a_hash : Ptr) (blocksize : Nat) :
    Nat → HashLoop → Option HashLoop
  | 0, s => if s.read ≠ 0 ∧ s.error = none then none else some s
  | fuel + 1, s =>
    if s.read ≠ 0 ∧ s.error = none then
      let checksum := g_checksum_update s.checksum (s.buffer.take s.read.toNat)
      let mem := g_checksum_get_digest sha256 checksum s.mem a_hash
      let hash_list := a_hash :: s.hash_list
      let checksum := g_checksum_reset checksum
      let r := g_input_stream_read s.stream s.buffer blocksize
      hash_loop sha256 a_hash blocksize fuel
        ⟨r.stream, r.buffer, checksum, hash_list, r.read, r.error, mem⟩
    else some s

/-- The state in which `calculate_hash_list_for_file` enters its loop: checksum, `buffer` and
`a_hash` allocated, first read done. -/
def hash_loop_entry (stream : GFileInputStream) (blocksize : Nat) (mem : Mem) :
    Ptr × HashLoop :=
  let checksum := g_checksum_new
  let buffer := List.replicate blocksize 0
  let a := g_malloc0 mem HASH_LEN
  let r := g_input_stream_read stream buffer blocksize
  (a.1, ⟨r.stream, r.buffer, checksum, [], r.read, r.error, a.2⟩)

/-- The function `calculate_hash_list_for_file(a_file, blocksize)`: the returned `GSList *` as
the list of the addresses it holds, and the memory on return. `none` only if the loop did not
end within as many iterations as the file has bytes. -/
def calculate_hash_list_for_file (sha256 : Bytes → Bytes) (fs : FileSystem)
    (a_file : Option GFile) (blocksize : Nat) (mem : Mem) : Option (List Ptr × Mem) :=
  match a_file with
  | none => some ([], mem)
  | some f =>
    match g_file_read fs f with
    | (some stream, none) =>
      let e := hash_loop_entry stream blocksize mem
      match hash_loop sha256 e.1 blocksize (stream.data.length + 1) e.2 with
      | none => none
      | some s =>
        let hash_list := if s.error ≠ none then free_list s.hash_list else s.hash_list
        let hash_list := hash_list.reverse
        some (hash_list, free_variable s.mem e.1)
    | _ => some ([], mem)

/-! ## monitor.c: the carver -/

/-- The fields of `options_t` that the monitor reads. -/
structure options_t where
  dirname_list : List Bytes
  blocksize : Nat
deriving DecidableEq, Repr

/-- The fields of `main_struct_t` that the monitor reads; `opt` may be NULL. The content of
the queue it points to is part of the `World`. -/
structure main_struct_t where
  opt : Option options_t
  signal_fd : Int
  fanotify_fd : Int
deriving DecidableEq, Repr

/-- The structure `meta_data_t`: `link` is NULL (`none`) unless set, `hash_list` is the
`GSList *` of digest buffers. -/
structure meta_data_t where
  file_type : GFileType
  name : Bytes
  inode : Nat
  owner : Bytes
  group : Bytes
  uid : Nat
  gid : Nat
  atime : Nat
  ctime : Nat
  mtime : Nat
  mode : Nat
  size : Nat
  link : Option Bytes
  hash_list : List Ptr
deriving DecidableEq, Repr

/-- One record of what the fanotify device reports (`struct fanotify_event_metadata`). -/
structure fanotify_event_metadata where
  event_len : Nat
  mask : Nat
  fd : Int
  pid : Int
deriving DecidableEq, Repr

/-- The calls that the model keeps track of, in the order they are made. -/
inductive Call where
  | carve_one_directory (data : Option Bytes)
  | event_process (event : fanotify_event_metadata)
  | print_debug_event (path : Bytes) (directory : Bytes) (pid : Int)
  | stop_fanotify (fanotify_fd : Int)
  | fanotify_mark_remove (fanotify_fd : Int) (dirname : Bytes)
  | sys_open (pid : Int) (fd : Option Int)
  | sys_close (fd : Int)
deriving DecidableEq, Repr

/-- The state that the monitor changes: heap blocks, open descriptors, the content of the
metadata queue `main_struct->queue`, and the calls made so far (oldest first). -/
structure World where
  mem : Mem
  open_fds : List Int
  queue : List meta_data_t
  trace : List Call
deriving DecidableEq, Repr

/-- Adds one call at the end of the record of calls. -/
def World.log (w : World) (c : Call) : World :=
  { w with trace := w.trace ++ [c] }

/-- Modelled from the spec: `CISEAUX_BLOCK_SIZE` is defined outside `src/`; the spec gives the
default blocksize as 16 KiB. -/
def CISEAUX_BLOCK_SIZE : Nat := 16384

/-- Modelled from the spec: `new_meta_data_t` is defined outside `src/`; it is taken to
return a record with every field zero, so with no link target ("present iff file_type =
Symlink") and no hashes. -/
def new_meta_data_t : meta_data_t :=
  { file_type := GFileType.G_FILE_TYPE_UNKNOWN, name := [], inode := 0, owner := [],
    group := [], uid := 0, gid := 0, atime := 0, ctime := 0, mtime := 0, mode := 0, size := 0,
    link := none, hash_list := [] }

/-- The byte of `G_DIR_SEPARATOR_S`. -/
def G_DIR_SEPARATOR : Nat := 47

/-- Removes the separators at the front of a path element. -/
def strip_leading : Bytes → Bytes
  | [] => []
  | b :: rest => if b = G_DIR_SEPARATOR then strip_leading rest else b :: rest

/-- The call `g_build_path(G_DIR_SEPARATOR_S, first, second, NULL)` of glib, as documented:
empty elements are ignored; at the boundary the separators that end the first element and
those that begin the second are removed and one separator is put. -/
def g_build_path (first second : Bytes) : Bytes :=
  if second = [] then first
  else if first = [] then second
  else (strip_leading first.reverse).reverse ++ [G_DIR_SEPARATOR] ++ strip_leading second

/-- The call `g_file_new_for_path(path)`: NULL for a NULL path. -/
def g_file_new_for_path (path : Option Bytes) : Option GFile :=
  path

/-- A `GFileEnumerator`: the directory enumerated and what is left to enumerate. -/
structure GFileEnumerator where
  container : GFile
  entries : List (Option GFileInfo)
deriving DecidableEq, Repr

/-- The call `g_file_enumerate_children(a_dir, "*", NOFOLLOW_SYMLINKS, NULL, &error)`: for a
NULL `a_dir` glib returns NULL and leaves the error unset; else the enumerator, or NULL with
the error set. With the no-follow flag a symbolic link is reported with type symbolic link
whatever it points to. -/
def g_file_enumerate_children (fs : FileSystem) (a_dir : Option GFile) :
    Option GFileEnumerator × Option GError :=
  match a_dir with
  | none => (none, none)
  | some d =>
    match fs.enumerate_children d with
    | some entries => (some ⟨d, entries⟩, none)
    | none => (none, some "enumerate error")

/-- The call `g_file_enumerator_get_child(file_enum, fileinfo)`. -/
def g_file_enumerator_get_child (container : GFile) (fileinfo : GFileInfo) : GFile :=
  g_build_path container fileinfo.name

/-- The function `get_meta_data_from_fileinfo(directory, fileinfo, a_file, blocksize)`: the
record built (NULL when `directory` is NULL; `fileinfo` is not NULL at its only call) and
the memory afterwards. `none` only if the hasher did not end within its bound. -/
def get_meta_data_from_fileinfo (sha256 : Bytes → Bytes) (fs : FileSystem)
    (directory : Option Bytes) (fileinfo : GFileInfo) (a_file : Option GFile)
    (blocksize : Nat) (mem : Mem) : Option (Option meta_data_t × Mem) :=
  match directory with
  | none => some (none, mem)
  | some dir =>
    let meta : meta_data_t :=
      { new_meta_data_t with
        file_type := fileinfo.file_type
        name := g_build_path dir fileinfo.name
        inode := fileinfo.inode
        owner := fileinfo.owner
        group := fileinfo.group
        uid := fileinfo.uid
        gid := fileinfo.gid
        atime := fileinfo.atime
        ctime := fileinfo.ctime
        mtime := fileinfo.mtime
        mode := fileinfo.mode
        size := fileinfo.size }
    if meta.file_type = GFileType.G_FILE_TYPE_SYMBOLIC_LINK then
      some (some { meta with link := fileinfo.symlink_target }, mem)
    else if meta.file_type = GFileType.G_FILE_TYPE_REGULAR then
      match calculate_hash_list_for_file sha256 fs a_file blocksize mem with
      | none => none
      | some (hash_list, mem1) => some (some { meta with hash_list := hash_list }, mem1)
    else some (some meta, mem)

/-- How a run of the carver ends: the call returned; or the process dereferenced NULL (the
state is the one at that moment); or a bound of the model was reached. -/
inductive Carve where
  | done (w : World)
  | fault (w : World)
  | out_of_bound
deriving DecidableEq, Repr

/-- The function `iterate_over_enum(main_struct, directory, file_enum)`, for a `file_enum`
that is not NULL, given as the directory it enumerates and its entries. `recurse` stands for
the function `carve_one_directory` that the loop calls; the local `filename` is declared NULL
and never assigned, so it is `none` at the call. The record `meta` is released at the end of
each iteration without having been sent anywhere. -/
def iterate_over_enum (sha256 : Bytes → Bytes) (fs : FileSystem)
    (recurse : Option Bytes → Option main_struct_t → World → Carve)
    (main_struct : Option main_struct_t) (directory : Option Bytes) (container : GFile) :
    List (Option GFileInfo) → World → Carve
  | [], w => Carve.done w
  | none :: _, w => Carve.done w
  | some fileinfo :: rest, w =>
    match main_struct with
    | none => Carve.done w
    | some ms =>
      let filename : Option Bytes := none
      let blocksize :=
        match ms.opt with
        | some opt => opt.blocksize
        | none => CISEAUX_BLOCK_SIZE
      let a_file := g_file_enumerator_get_child container fileinfo
      match get_meta_data_from_fileinfo sha256 fs directory fileinfo (some a_file) blocksize
          w.mem with
      | none => Carve.out_of_bound
      | some (none, mem1) => Carve.fault { w with mem := mem1 }
      | some (some meta, mem1) =>
        let w1 := { w with mem := mem1 }
        if meta.file_type = GFileType.G_FILE_TYPE_DIRECTORY then
          match recurse filename main_struct w1 with
          | Carve.done w2 =>
            iterate_over_enum sha256 fs recurse main_struct directory container rest w2
          | stopped => stopped
        else iterate_over_enum sha256 fs recurse main_struct directory container rest w1

/-- The function `carve_one_directory(data, user_data)`. The first argument bounds the depth
of the recursion. When the enumeration fails the code prints `error->message`: with the error
unset this dereferences NULL. -/
def carve_one_directory (sha256 : Bytes → Bytes) (fs : FileSystem) :
    Nat → Option Bytes → Option main_struct_t → World → Carve
  | 0, _, _, _ => Carve.out_of_bound
  | depth + 1, data, user_data, w =>
    let directory := data
    let main_struct := user_data
    let w := w.log (Call.carve_one_directory data)
    let a_dir := g_file_new_for_path directory
    match g_file_enumerate_children fs a_dir with
    | (some file_enum, none) =>
      iterate_over_enum sha256 fs (carve_one_directory sha256 fs depth) main_struct directory
        file_enum.container file_enum.entries w
    | (_, some _) => Carve.done w
    | (none, none) => Carve.fault w

/-- The call `g_slist_foreach(list, carve_one_directory, main_struct)`. -/
def g_slist_foreach_carve (sha256 : Bytes → Bytes) (fs : FileSystem) (depth : Nat)
    (main_struct : Option main_struct_t) : List Bytes → World → Carve
  | [], w => Carve.done w
  | d :: rest, w =>
    match carve_one_directory sha256 fs depth (some d) main_struct w with
    | Carve.done w1 => g_slist_foreach_carve sha256 fs depth main_struct rest w1
    | stopped => stopped

/-- The function `carve_all_directories(main_struct)`. -/
def carve_all_directories (sha256 : Bytes → Bytes) (fs : FileSystem) (depth : Nat)
    (main_struct : Option main_struct_t) (w : World) : Carve :=
  match main_struct with
  | none => Carve.done w
  | some ms =>
    match ms.opt with
    | none => Carve.done w
    | some opt => g_slist_foreach_carve sha256 fs depth main_struct opt.dirname_list w

/-! ## m_fanotify.c: event filtering and the main loop -/

/-- The bytes of an ASCII text. -/
def ascii (s : String) : Bytes :=
  s.data.map Char.toNat

/-- What `/proc` answers. `lstat_size fd` is the `st_size` that `lstat` reports for
`/proc/self/fd/<fd>` (`none`: lstat returns -1); `readlink_target fd` is the whole target of
that link (`none`: readlink fails); `open_cmdline pid` is the descriptor that `open` returns
for `/proc/<pid>/cmdline` (`none`: open fails). -/
structure ProcFs where
  lstat_size : Int → Option Nat
  readlink_target : Int → Option Bytes
  open_cmdline : Int → Option Int

/-- The system call `close(fd)`. -/
def sys_close (fd : Int) (w : World) : World :=
  { w with
    open_fds := w.open_fds.filter (fun x => x ≠ fd)
    trace := w.trace ++ [Call.sys_close fd] }

/-- The string that starts at the front of a buffer: the bytes before the first NUL. -/
def c_string (buffer : Bytes) : Bytes :=
  buffer.takeWhile (fun b => b ≠ 0)

/-- The system call `readlink(path, buf, bufsiz)` on a link with the given target, as the
bytes it stores (their number is what it returns): it fails when the link cannot be read and
when `bufsiz` is 0 (EINVAL); otherwise it stores the target, cut to `bufsiz` bytes when it is
longer, and no terminator. -/
def sys_readlink (target : Option Bytes) (bufsiz : Nat) : Option Bytes :=
  if bufsiz = 0 then none else target.map (fun t => t.take bufsiz)

/-- The store `buffer[i] = b` of C: it is defined only for an index inside the buffer
(`none`: the store is outside). -/
def store_byte (buffer : Bytes) (i b : Nat) : Option Bytes :=
  if i < buffer.length then some (buffer.set i b) else none

/-- The store of the bytes `stored` at the front of a buffer, as `readlink` does it: it is
defined only when the bytes fit in the buffer (`none`: they do not). -/
def store_front (buffer stored : Bytes) : Option Bytes :=
  if stored.length ≤ buffer.length then some (stored ++ buffer.drop stored.length) else none

/-- The locals of `get_file_path_from_fd` when it comes to `path[len] = 0`: the whole buffer
`path` as `readlink` left it, and `len`. -/
structure PathLocals where
  path : Bytes
  len : Nat
deriving DecidableEq, Repr

/-- How far `get_file_path_from_fd` gets: it returned one of its fixed strings; or it
reached the statement `path[len] = 0` with these locals; or `readlink` stored outside the
buffer. -/
inductive PathRun where
  | returned (s : Bytes)
  | reached (locals : PathLocals)
  | outside
deriving DecidableEq, Repr

/-- The function `get_file_path_from_fd(fd)` up to the statement `path[len] = 0`: the buffer
`path` has `linklen + 1` zero bytes (`g_malloc0`), and `readlink(proc, path, linklen)`
stores into it. -/
def get_file_path_from_fd_run (proc : ProcFs) (fd : Int) : PathRun :=
  if fd ≤ 0 then PathRun.returned (ascii "fd unknown")
  else
    match proc.lstat_size fd with
    | none => PathRun.returned (ascii "lstat unknown")
    | some linklen =>
      let path := List.replicate (linklen + 1) 0
      match sys_readlink (proc.readlink_target fd) linklen with
      | none => PathRun.returned (ascii "readlink unknown")
      | some stored =>
        let len := stored.length
        match store_front path stored with
        | none => PathRun.outside
        | some path => PathRun.reached ⟨path, len⟩

/-- The function `get_file_path_from_fd(fd)` with its stores checked: the string it returns,
or `none` when one of its stores is outside the buffer `path`. -/
def get_file_path_from_fd_checked (proc : ProcFs) (fd : Int) : Option Bytes :=
  match get_file_path_from_fd_run proc fd with
  | PathRun.returned s => some s
  | PathRun.outside => none
  | PathRun.reached locals =>
    match store_byte locals.path locals.len 0 with
    | none => none
    | some path => some (c_string path)

/-- The function `get_file_path_from_fd(fd)`: the string it returns. No store of the
function is ever outside its buffer (`get_file_path_from_fd_checked_some`), so the value
given for that case is never used. -/
def get_file_path_from_fd (proc : ProcFs) (fd : Int) : Bytes :=
  (get_file_path_from_fd_checked proc fd).getD []

/-- The function `get_program_name_from_pid(pid)`, as far as descriptors go: it opens
`/proc/<pid>/cmdline`, reads it and closes it on both of its paths; when the open fails it
returns at once. The name it returns is only printed and is left out. -/
def get_program_name_from_pid (proc : ProcFs) (pid : Int) (w : World) : World :=
  match proc.open_cmdline pid with
  | none => w.log (Call.sys_open pid none)
  | some fd =>
    let w :=
      { w with
        open_fds := fd :: w.open_fds
        trace := w.trace ++ [Call.sys_open pid (some fd)] }
    sys_close fd w

/-- The call `strncmp(s1, s2, n)`, up to the sign of its result: the end of a list is the
terminating NUL, which is less than every byte of a string. -/
def strncmp : Bytes → Bytes → Nat → Int
  | _, _, 0 => 0
  | [], [], _ + 1 => 0
  | [], _ :: _, _ + 1 => -1
  | _ :: _, [], _ + 1 => 1
  | a :: s1, b :: s2, n + 1 =>
    if a < b then -1 else if b < a then 1 else strncmp s1 s2 n

/-- The matching loop `while (head != NULL && found == FALSE)` of `event_process`: the values
of `found` and of the cursor `head` when the loop is left. `casefold` is `g_utf8_casefold`;
`lenp` is `strlen(path)` and `pathutf8` the folded path. -/
def event_match (casefold : Bytes → Bytes) (pathutf8 : Bytes) (lenp : Nat) :
    List Bytes → Bool × List Bytes
  | [] => (false, [])
  | d :: rest =>
    let lend := d.length
    let dirutf8 := casefold d
    let lencmp := if lenp < lend then lenp else lend
    if strncmp dirutf8 pathutf8 lencmp = 0 then (true, d :: rest)
    else event_match casefold pathutf8 lenp rest

/-- The function `event_process(event, dir_list)`. When a directory matched, the code prints
the path, the matching directory `head->data` and the name of the process; nothing is sent to
the queue; the descriptor of the event is closed at the end. -/
def event_process (casefold : Bytes → Bytes) (proc : ProcFs)
    (event : fanotify_event_metadata) (dir_list : List Bytes) (w : World) : World :=
  let w := w.log (Call.event_process event)
  let path := get_file_path_from_fd proc event.fd
  let lenp := path.length
  let pathutf8 := casefold path
  let w :=
    match event_match casefold pathutf8 lenp dir_list with
    | (true, d :: _) =>
      let w := get_program_name_from_pid proc event.pid w
      w.log (Call.print_debug_event path d event.pid)
    | _ => w
  sys_close event.fd w

/-- The function `stop_fanotify(opt, fanotify_fd)`. -/
def stop_fanotify (opt : Option options_t) (fanotify_fd : Int) (w : World) : World :=
  let w := w.log (Call.stop_fanotify fanotify_fd)
  let w :=
    match opt with
    | none => w
    | some o =>
      { w with trace := w.trace ++ o.dirname_list.map (Call.fanotify_mark_remove fanotify_fd) }
  sys_close fanotify_fd w

/-- Signal numbers on Linux. -/
def SIGINT : Nat := 2

/-- Signal numbers on Linux. -/
def SIGTERM : Nat := 15

/-- The size of `struct fanotify_event_metadata` (`FAN_EVENT_METADATA_LEN`). -/
def FAN_EVENT_METADATA_LEN : Int := 24

/-- The test `FAN_EVENT_OK(meta, len)` of `linux/fanotify.h`. -/
def FAN_EVENT_OK (event : fanotify_event_metadata) (len : Int) : Bool :=
  decide (len ≥ FAN_EVENT_METADATA_LEN)
    && decide ((event.event_len : Int) ≥ FAN_EVENT_METADATA_LEN)
    && decide ((event.event_len : Int) ≤ len)

/-- The inner loop `while (FAN_EVENT_OK(fe_mdata, length))` of `fanotify_loop`. `buffer off`
is the record found `off` bytes into the buffer; `FAN_EVENT_NEXT` moves on by `event_len`
bytes and takes as many from `length`. The first argument bounds the number of iterations;
`none` means that the bound was reached with the loop still running. -/
def drain_events (casefold : Bytes → Bytes) (proc : ProcFs) (dir_list : List Bytes)
    (buffer : Nat → fanotify_event_metadata) : Nat → Nat → Int → World → Option World
  | 0, off, length, w => if FAN_EVENT_OK (buffer off) length then none else some w
  | fuel + 1, off, length, w =>
    let fe_mdata := buffer off
    if FAN_EVENT_OK fe_mdata length then
      let w := event_process casefold proc fe_mdata dir_list w
      let w := if fe_mdata.fd > 0 then sys_close fe_mdata.fd w else w
      drain_events casefold proc dir_list buffer fuel (off + fe_mdata.event_len)
        (length - fe_mdata.event_len) w
    else some w

/-- What one turn of the loop of `fanotify_loop` gets from the system: the `revents` of the
two descriptors as they stand after `poll`; `signal_read` is the `ssi_signo` that the read of
the signal descriptor stores (`none`: the read stores nothing and `fdsi` keeps what it held);
`length` is what the read of the fanotify descriptor returns and `buffer` what it stores. -/
structure PollCycle where
  signal_pollin : Bool
  signal_read : Option Nat
  fanotify_pollin : Bool
  length : Int
  buffer : Nat → fanotify_event_metadata

/-- How a run of `fanotify_loop` over a finite sequence of turns ends: the function returned,
leaving the turns not yet consumed; or it is blocked in `poll`; or it dereferenced NULL; or
a bound of the model was reached. -/
inductive LoopEnd where
  | returned (w : World) (rest : List PollCycle)
  | waiting (w : World)
  | fault (w : World)
  | out_of_bound

/-- The loop `while (1)` of `fanotify_loop`; `fdsi` is the `ssi_signo` that the local
`fdsi` holds. -/
def fanotify_while (casefold : Bytes → Bytes) (proc : ProcFs) (main_struct : main_struct_t) :
    Nat → List PollCycle → World → LoopEnd
  | _, [], w => LoopEnd.waiting w
  | fdsi, c :: rest, w =>
    let fdsi := if c.signal_pollin then c.signal_read.getD fdsi else fdsi
    if c.signal_pollin ∧ (fdsi = SIGINT ∨ fdsi = SIGTERM) then
      LoopEnd.returned (stop_fanotify main_struct.opt main_struct.fanotify_fd w) rest
    else if c.fanotify_pollin ∧ c.length > 0 then
      match main_struct.opt with
      | none =>
        if FAN_EVENT_OK (c.buffer 0) c.length then LoopEnd.fault w
        else fanotify_while casefold proc main_struct fdsi rest w
      | some opt =>
        match drain_events casefold proc opt.dirname_list c.buffer c.length.toNat 0 c.length
            w with
        | none => LoopEnd.out_of_bound
        | some w1 => fanotify_while casefold proc main_struct fdsi rest w1
    else fanotify_while casefold proc main_struct fdsi rest w

/-- The function `fanotify_loop(main_struct)`; `fdsi` is what the uninitialised local `fdsi`
holds on entry. -/
def fanotify_loop (casefold : Bytes → Bytes) (proc : ProcFs)
    (main_struct : Option main_struct_t) (fdsi : Nat) (cycles : List PollCycle) (w : World) :
    LoopEnd :=
  match main_struct with
  | none => LoopEnd.returned w cycles
  | some ms => fanotify_while casefold proc ms fdsi cycles w

/-- A fragment of Unicode full case folding on UTF-8 text, used for concrete inputs: `A`-`Z`
go to `a`-`z`, the ligature U+FB01 (bytes EF AC 81) goes to `fi`, every other byte is kept.
On text made of ASCII characters and U+FB01 this is what `g_utf8_casefold` returns. -/
def casefold_sample : Bytes → Bytes
  | 239 :: 172 :: 129 :: rest => 102 :: 105 :: casefold_sample rest
  | b :: rest => (if 65 ≤ b ∧ b ≤ 90 then b + 32 else b) :: casefold_sample rest
  | [] => []

/-! ## Auxiliary definitions for the statements -/

/-- The loop variables of `calculate_hash_list_for_file` right after a read. -/
def after_read (r : ReadResult) (ck : GChecksum) (hl : List Ptr) (mem : Mem) : HashLoop :=
  ⟨r.stream, r.buffer, ck, hl, r.read, r.error, mem⟩

/-- Whether a recorded call is an entry into `stop_fanotify`. -/
def Call.is_stop : Call → Bool
  | Call.stop_fanotify _ => true
  | _ => false

/-- Number of entries into `stop_fanotify` in a record of calls. -/
def stop_calls (trace : List Call) : Nat :=
  trace.countP Call.is_stop

/-- The turn on which the loop is to be left: the signal descriptor is readable and the
signal read is SIGINT or SIGTERM. -/
def PollCycle.shutdown (c : PollCycle) : Prop :=
  c.signal_pollin = true ∧ (c.signal_read = some SIGINT ∨ c.signal_read = some SIGTERM)

/-- When the signal descriptor is readable, the read stores a signal. -/
def PollCycle.signal_read_ok (c : PollCycle) : Prop :=
  c.signal_pollin = true → c.signal_read ≠ none

/-! ## Concrete inputs -/

/-- The state before anything ran: no block allocated, no descriptor open, empty queue. -/
def world0 : World :=
  ⟨[], [], [], []⟩

/-- A main structure with the given directories and blocksize. -/
def main_for (dirname_list : List Bytes) (blocksize : Nat) : main_struct_t :=
  { opt := some ⟨dirname_list, blocksize⟩, signal_fd := 3, fanotify_fd := 4 }

/-- A directory entry with the given type, name and link target. -/
def entry (file_type : GFileType) (name : Bytes) (symlink_target : Option Bytes) :
    GFileInfo :=
  { file_type := file_type, name := name, inode := 1, owner := ascii "root",
    group := ascii "root", uid := 0, gid := 0, atime := 0, ctime := 0, mtime := 0,
    mode := 0, size := 0, symlink_target := symlink_target }

/-- The ten bytes 0x00..0x09 of scenario S2. -/
def ten_bytes : Bytes :=
  [0, 1, 2, 3, 4, 5, 6, 7, 8, 9]

/-- Scenario S2: `/tmp/t2/a.bin` holds the ten bytes and reads without error; `/tmp/t2/b.bin`
holds the same bytes and its third read reports an error. -/
def fs_S2 : FileSystem :=
  { enumerate_children := fun p =>
      if p = ascii "/tmp/t2" then
        some [some (entry GFileType.G_FILE_TYPE_REGULAR (ascii "a.bin") none)]
      else none
    file_read := fun p =>
      if p = ascii "/tmp/t2/a.bin" then some ⟨ten_bytes, none⟩
      else if p = ascii "/tmp/t2/b.bin" then some ⟨ten_bytes, some 2⟩
      else none }

/-- Scenario S3: `/tmp/t3` holds `link`, a symbolic link to the directory `/etc`, which
holds the file `passwd`. -/
def fs_S3 : FileSystem :=
  { enumerate_children := fun p =>
      if p = ascii "/tmp/t3" then
        some [some (entry GFileType.G_FILE_TYPE_SYMBOLIC_LINK (ascii "link")
          (some (ascii "/etc")))]
      else if p = ascii "/etc" then
        some [some (entry GFileType.G_FILE_TYPE_REGULAR (ascii "passwd") none)]
      else none
    file_read := fun p => if p = ascii "/etc/passwd" then some ⟨ten_bytes, none⟩ else none }

/-- Scenario S1: `/tmp/t1` exists and is empty. -/
def fs_S1 : FileSystem :=
  { enumerate_children := fun p => if p = ascii "/tmp/t1" then some [] else none
    file_read := fun _ => none }

/-- A tree with one subdirectory: `/tmp/t5` holds the empty directory `sub`. -/
def fs_subdir : FileSystem :=
  { enumerate_children := fun p =>
      if p = ascii "/tmp/t5" then
        some [some (entry GFileType.G_FILE_TYPE_DIRECTORY (ascii "sub") none)]
      else if p = ascii "/tmp/t5/sub" then some []
      else none
    file_read := fun _ => none }

/-- The path `/ﬁ`, with the ligature U+FB01 in UTF-8. -/
def dir_ligature : Bytes :=
  [47, 239, 172, 129]

/-- The path `/ﬁ/x`. -/
def path_ligature : Bytes :=
  [47, 239, 172, 129, 47, 120]

/-- A buffer without any record. -/
def no_events : Nat → fanotify_event_metadata :=
  fun _ => ⟨0, 0, 0, 0⟩

/-- A buffer that starts with one record of 24 bytes, for descriptor 5 and process 100. -/
def one_event : Nat → fanotify_event_metadata :=
  fun off => if off = 0 then ⟨24, 2, 5, 100⟩ else ⟨0, 0, 0, 0⟩

/-- Two turns that do not end the loop: a notification of one record, then the signal 10. -/
def turns_before : List PollCycle :=
  [⟨false, none, true, 24, one_event⟩, ⟨true, some 10, false, 0, no_events⟩]

/-- The turn on which SIGTERM is read. -/
def turn_sigterm : PollCycle :=
  ⟨true, some 15, false, 0, no_events⟩

/-- A turn on which the signal descriptor is readable and its read has a wrong size and
stores nothing. -/
def turn_wrong_size : PollCycle :=
  ⟨true, none, false, 0, no_events⟩

/-- What `/proc` answers in the examples: every link has size 7 and target `/home/a`. -/
def proc_home : ProcFs :=
  ⟨fun _ => some 7, fun _ => some (ascii "/home/a"), fun _ => some 9⟩

/-! ## Loop states, buffers of events and further inputs -/

/-- One run of the body of the loop of `calculate_hash_list_for_file`: checksum update, digest
into `a_hash`, prepend, checksum reset, next read. -/
def hash_loop_body (sha256 : Bytes → Bytes) (a_hash : Ptr) (blocksize : Nat) (s : HashLoop) :
    HashLoop :=
  after_read (g_input_stream_read s.stream s.buffer blocksize)
    (g_checksum_reset (g_checksum_update s.checksum (s.buffer.take s.read.toNat)))
    (a_hash :: s.hash_list)
    (g_checksum_get_digest sha256
      (g_checksum_update s.checksum (s.buffer.take s.read.toNat)) s.mem a_hash)

/-- The test that the matching loop of `event_process` makes on one directory:
`strncmp(dirutf8, pathutf8, lencmp) == 0` with `lencmp` the lesser of `lenp` and `lend`. -/
def prefix_test (casefold : Bytes → Bytes) (pathutf8 : Bytes) (lenp : Nat) (d : Bytes) :
    Bool :=
  decide (strncmp (casefold d) pathutf8 (if lenp < d.length then lenp else d.length) = 0)

/-- The events on which `event_process` was entered, in the order of the calls. -/
def event_process_calls : List Call → List fanotify_event_metadata
  | [] => []
  | Call.event_process e :: rest => e :: event_process_calls rest
  | _ :: rest => event_process_calls rest

/-- Number of calls `close(fd)` in a record of calls. -/
def close_calls (fd : Int) (trace : List Call) : Nat :=
  trace.count (Call.sys_close fd)

/-- The buffer holds the events `evs` back to back from offset `off` on, each with an
`event_len` of at least the size of the metadata structure. -/
def holds_events (buffer : Nat → fanotify_event_metadata) :
    Nat → List fanotify_event_metadata → Prop
  | _, [] => True
  | off, e :: rest =>
    buffer off = e ∧ FAN_EVENT_METADATA_LEN ≤ (e.event_len : Int) ∧
      holds_events buffer (off + e.event_len) rest

/-- The bytes that a list of events takes in a buffer. -/
def events_len : List fanotify_event_metadata → Nat
  | [] => 0
  | e :: rest => e.event_len + events_len rest

/-- A buffer with two records back to back: 24 bytes for descriptor 5, then 32 bytes for
descriptor 6. -/
def two_events : Nat → fanotify_event_metadata :=
  fun off =>
    if off = 0 then ⟨24, 2, 5, 100⟩
    else if off = 24 then ⟨32, 8, 6, 101⟩
    else ⟨0, 0, 0, 0⟩

/-- What the inner loop of `fanotify_loop` does for one event: `event_process`, then the
`close` of the loop body when the descriptor is positive. -/
def drain_step (casefold : Bytes → Bytes) (proc : ProcFs) (dir_list : List Bytes) (w : World)
    (e : fanotify_event_metadata) : World :=
  if e.fd > 0 then sys_close e.fd (event_process casefold proc e dir_list w)
  else event_process casefold proc e dir_list w

/-- The loop variables of `calculate_hash_list_for_file` at the start of iteration `i` of its
loop (counted from 0), as long as the loop runs that far. -/
def hash_loop_at (sha256 : Bytes → Bytes) (stream : GFileInputStream) (blocksize : Nat)
    (mem : Mem) : Nat → HashLoop
  | 0 => (hash_loop_entry stream blocksize mem).2
  | i + 1 =>
    hash_loop_body sha256 (hash_loop_entry stream blocksize mem).1 blocksize
      (hash_loop_at sha256 stream blocksize mem i)

/-- What `/proc` answers when `lstat` reports the size 4 for a link whose target is
`/home/a`. -/
def proc_short : ProcFs :=
  ⟨fun _ => some 4, fun _ => some (ascii "/home/a"), fun _ => none⟩

/-! ## Lemmas -/

theorem ceil_div_step (n B : Nat) (hB : 0 < B) (hn : 0 < n) :
    (n - B + B - 1) / B + 1 = (n + B - 1) / B := by
  rcases Nat.lt_or_ge B n with h | h
  · have h1 : n - B + B - 1 + B = n + B - 1 := by omega
    rw [← h1, Nat.add_div_right _ hB]
  · have h1 : n - B + B - 1 = B - 1 := by omega
    have h2 : n + B - 1 = (n - 1) + B := by omega
    rw [h1, h2, Nat.add_div_right _ hB, Nat.div_eq_of_lt (by omega), Nat.div_eq_of_lt (by omega)]

theorem ceil_div_eq (n B : Nat) (hB : 0 < B) :
    (n + B - 1) / B = n / B + (if n % B = 0 then 0 else 1) := by
  have hn := Nat.div_add_mod n B
  have hr := Nat.mod_lt n hB
  split_ifs with h
  · have h1 : n + B - 1 = (B - 1) + B * (n / B) := by omega
    rw [h1, Nat.add_mul_div_left _ _ hB, Nat.div_eq_of_lt (by omega)]
    omega
  · have h1 : n + B - 1 = (n % B - 1) + B * (n / B + 1) := by
      rw [Nat.mul_add]; omega
    rw [h1, Nat.add_mul_div_left _ _ hB, Nat.div_eq_of_lt (by omega)]
    omega

theorem hash_loop_succ (sha256 : Bytes → Bytes) (p B fuel : Nat) (s : HashLoop) :
    hash_loop sha256 p B (fuel + 1) s =
      if s.read ≠ 0 ∧ s.error = none then
        hash_loop sha256 p B fuel
          (after_read (g_input_stream_read s.stream s.buffer B)
            (g_checksum_reset (g_checksum_update s.checksum (s.buffer.take s.read.toNat)))
            (p :: s.hash_list)
            (g_checksum_get_digest sha256
              (g_checksum_update s.checksum (s.buffer.take s.read.toNat)) s.mem p))
      else some s := by
  rw [hash_loop]; rfl

theorem read_ok (data buffer : Bytes) (B : Nat) :
    g_input_stream_read ⟨data, none⟩ buffer B =
      ⟨((data.take B).length : Nat), data.take B ++ buffer.drop (data.take B).length,
        ⟨data.drop B, none⟩, none⟩ := by
  simp [g_input_stream_read]

theorem hash_loop_no_error (sha256 : Bytes → Bytes) (p B : Nat) (hB : 0 < B) :
    ∀ (fuel : Nat) (data buffer : Bytes) (ck : GChecksum) (hl : List Ptr) (mem : Mem),
      data.length < fuel →
      ∃ s, hash_loop sha256 p B fuel
          (after_read (g_input_stream_read ⟨data, none⟩ buffer B) ck hl mem) = some s
        ∧ s.hash_list.length = hl.length + (data.length + B - 1) / B
        ∧ s.error = none := by
  intro fuel
  induction fuel with
  | zero => intro data _ _ _ _ h; omega
  | succ fuel ih =>
    intro data buffer ck hl mem hlt
    rw [hash_loop_succ, read_ok]
    rcases data with _ | ⟨b, data⟩
    · rw [if_neg (by simp [after_read])]
      refine ⟨_, rfl, ?_, rfl⟩
      simp [after_read, Nat.div_eq_of_lt (show B - 1 < B by omega)]
    · have hpos : (((b :: data).take B).length : Int) ≠ 0 := by
        have : ((b :: data).take B).length ≠ 0 := by
          simp only [List.length_take, List.length_cons]; omega
        exact_mod_cast this
      have hlen : ((b :: data).drop B).length < fuel := by
        simp only [List.length_drop, List.length_cons] at hlt ⊢; omega
      rw [if_pos ⟨hpos, rfl⟩]
      obtain ⟨s, hs, hl1, he⟩ := ih ((b :: data).drop B) _ _ _ _ hlen
      refine ⟨s, hs, ?_, he⟩
      rw [hl1]
      have := ceil_div_step (b :: data).length B hB (by simp)
      simp only [List.length_drop, List.length_cons, after_read] at this ⊢
      omega

theorem read_fail (data buffer : Bytes) (B : Nat) :
    g_input_stream_read ⟨data, some 0⟩ buffer B =
      ⟨-1, buffer, ⟨data, some 0⟩, some "read error"⟩ := by
  simp [g_input_stream_read]

theorem read_before_fail (data buffer : Bytes) (k B : Nat) :
    g_input_stream_read ⟨data, some (k + 1)⟩ buffer B =
      ⟨((data.take B).length : Nat), data.take B ++ buffer.drop (data.take B).length,
        ⟨data.drop B, some k⟩, none⟩ := by
  simp [g_input_stream_read]

theorem hash_loop_error (sha256 : Bytes → Bytes) (p B : Nat) :
    ∀ (k fuel : Nat) (data buffer : Bytes) (ck : GChecksum) (hl : List Ptr) (mem : Mem),
      data.length < fuel → (∀ i < k, 0 < B ∧ i * B < data.length) →
      ∃ s, hash_loop sha256 p B fuel
          (after_read (g_input_stream_read ⟨data, some k⟩ buffer B) ck hl mem) = some s
        ∧ s.error ≠ none := by
  intro k
  induction k with
  | zero =>
    intro fuel data buffer ck hl mem hlt _
    rw [read_fail]
    cases fuel with
    | zero => omega
    | succ fuel =>
      rw [hash_loop_succ, if_neg (by simp [after_read])]
      exact ⟨_, rfl, by simp [after_read]⟩
  | succ k ih =>
    intro fuel data buffer ck hl mem hlt hk
    obtain ⟨hB, h0⟩ := hk 0 (Nat.succ_pos k)
    cases fuel with
    | zero => omega
    | succ fuel =>
      have hpos : ((data.take B).length : Int) ≠ 0 := by
        have : (data.take B).length ≠ 0 := by
          simp only [List.length_take]; omega
        exact_mod_cast this
      have hlen : (data.drop B).length < fuel := by
        simp only [List.length_drop] at hlt ⊢; omega
      rw [hash_loop_succ, read_before_fail, if_pos ⟨hpos, rfl⟩]
      refine ih fuel (data.drop B) _ _ _ _ hlen ?_
      intro i hi
      obtain ⟨_, h1⟩ := hk (i + 1) (Nat.succ_lt_succ hi)
      refine ⟨hB, ?_⟩
      simp only [List.length_drop]
      have : (i + 1) * B = i * B + B := by ring
      omega

theorem hash_loop_total (sha256 : Bytes → Bytes) (p B : Nat) :
    ∀ (fuel : Nat) (stream : GFileInputStream) (buffer : Bytes) (ck : GChecksum)
      (hl : List Ptr) (mem : Mem), stream.data.length < fuel →
      ∃ s, hash_loop sha256 p B fuel
          (after_read (g_input_stream_read stream buffer B) ck hl mem) = some s := by
  intro fuel
  induction fuel with
  | zero => intro stream _ _ _ _ h; omega
  | succ fuel ih =>
    intro stream buffer ck hl mem hlt
    rw [hash_loop_succ]
    split_ifs with hc
    · refine ih _ _ _ _ _ ?_
      obtain ⟨data, fa⟩ := stream
      obtain ⟨hr, he⟩ := hc
      rcases fa with _ | _ | k
      · rw [read_ok] at hr ⊢
        simp only [after_read, List.length_take, List.length_drop] at hr hlt ⊢
        omega
      · rw [read_fail] at he
        simp [after_read] at he
      · rw [read_before_fail] at hr ⊢
        simp only [after_read, List.length_take, List.length_drop] at hr hlt ⊢
        omega
    · exact ⟨_, rfl⟩

theorem calculate_hash_list_total (sha256 : Bytes → Bytes) (fs : FileSystem)
    (a_file : Option GFile) (B : Nat) (mem : Mem) :
    ∃ out, calculate_hash_list_for_file sha256 fs a_file B mem = some out := by
  rcases a_file with _ | f
  · exact ⟨_, rfl⟩
  · simp only [calculate_hash_list_for_file, g_file_read]
    rcases hread : fs.file_read f with _ | stream
    · exact ⟨_, rfl⟩
    · obtain ⟨s, hs⟩ := hash_loop_total sha256 (g_malloc0 mem HASH_LEN).1 B
        (stream.data.length + 1) stream (List.replicate B 0) g_checksum_new []
        (g_malloc0 mem HASH_LEN).2 (Nat.lt_succ_self _)
      simp only [after_read] at hs
      simp only [hash_loop_entry]
      rw [hs]
      exact ⟨_, rfl⟩

theorem strncmp_eq_zero_iff : ∀ (n : Nat) (a b : Bytes),
    strncmp a b n = 0 ↔ a.take n = b.take n := by
  intro n
  induction n with
  | zero => intro a b; simp [strncmp]
  | succ n ih =>
    intro a b
    rcases a with _ | ⟨x, a⟩ <;> rcases b with _ | ⟨y, b⟩
    · simp [strncmp]
    · simp [strncmp]
    · simp [strncmp]
    · rw [strncmp]
      by_cases h1 : x < y
      · simp [h1]; intro h; omega
      · by_cases h2 : y < x
        · simp [h1, h2]; intro h; omega
        · have hxy : x = y := by omega
          simp [h1, h2, hxy, ih]

theorem event_match_true (casefold : Bytes → Bytes) (pathutf8 : Bytes) (lenp : Nat) :
    ∀ (dir_list : List Bytes) (D : Bytes) (rest : List Bytes),
      event_match casefold pathutf8 lenp dir_list = (true, D :: rest) →
      strncmp (casefold D) pathutf8 (min lenp D.length) = 0 := by
  intro dir_list
  induction dir_list with
  | nil => intro D rest h; simp [event_match] at h
  | cons d ds ih =>
    intro D rest h
    rw [event_match] at h
    have hmin : (if lenp < d.length then lenp else d.length) = min lenp d.length := by
      split_ifs <;> omega
    simp only [hmin] at h
    split_ifs at h with hc
    · simp only [Prod.mk.injEq, List.cons.injEq, true_and] at h
      rw [← h.1]; exact hc
    · exact ih D rest h

theorem sys_close_not_open (fd : Int) (w : World) : fd ∉ (sys_close fd w).open_fds := by
  simp [sys_close]

theorem sys_close_stop_calls (fd : Int) (w : World) :
    stop_calls (sys_close fd w).trace = stop_calls w.trace := by
  simp [sys_close, stop_calls, List.countP_append, List.countP_cons, Call.is_stop]

theorem event_process_stop_calls (casefold : Bytes → Bytes) (proc : ProcFs)
    (event : fanotify_event_metadata) (dir_list : List Bytes) (w : World) :
    stop_calls (event_process casefold proc event dir_list w).trace = stop_calls w.trace := by
  simp only [event_process]
  rw [sys_close_stop_calls]
  split
  · simp only [get_program_name_from_pid]
    split <;>
      simp [World.log, sys_close, stop_calls, List.countP_append, List.countP_cons,
        Call.is_stop]
  · simp [World.log, stop_calls, List.countP_append, List.countP_cons, Call.is_stop]

theorem drain_events_total (casefold : Bytes → Bytes) (proc : ProcFs) (dir_list : List Bytes)
    (buffer : Nat → fanotify_event_metadata) :
    ∀ (fuel off : Nat) (length : Int) (w : World), length.toNat ≤ fuel →
      ∃ w1, drain_events casefold proc dir_list buffer fuel off length w = some w1 ∧
        stop_calls w1.trace = stop_calls w.trace := by
  intro fuel
  induction fuel with
  | zero =>
    intro off length w h
    have hno : FAN_EVENT_OK (buffer off) length = false := by
      simp [FAN_EVENT_OK, FAN_EVENT_METADATA_LEN]
      intro h1; omega
    exact ⟨w, by simp [drain_events, hno], rfl⟩
  | succ fuel ih =>
    intro off length w h
    rw [drain_events]
    by_cases hok : FAN_EVENT_OK (buffer off) length = true
    · simp only [hok, if_true]
      have hlen : (length - ((buffer off).event_len : Int)).toNat ≤ fuel := by
        simp [FAN_EVENT_OK, FAN_EVENT_METADATA_LEN] at hok
        omega
      obtain ⟨w1, h1, h2⟩ := ih (off + (buffer off).event_len)
        (length - ((buffer off).event_len : Int))
        (if (buffer off).fd > 0 then
          sys_close (buffer off).fd (event_process casefold proc (buffer off) dir_list w)
         else event_process casefold proc (buffer off) dir_list w) hlen
      refine ⟨w1, h1, ?_⟩
      rw [h2]
      split_ifs
      · rw [sys_close_stop_calls, event_process_stop_calls]
      · rw [event_process_stop_calls]
    · simp only [hok]
      exact ⟨w, rfl, rfl⟩

theorem fanotify_while_waiting (casefold : Bytes → Bytes) (proc : ProcFs) (ms : main_struct_t)
    (opt : options_t) (hopt : ms.opt = some opt) :
    ∀ (cycles : List PollCycle) (fdsi : Nat) (w : World),
      (∀ x ∈ cycles, x.signal_read_ok) → (∀ x ∈ cycles, ¬ x.shutdown) →
      ∃ w1, fanotify_while casefold proc ms fdsi cycles w = LoopEnd.waiting w1 ∧
        stop_calls w1.trace = stop_calls w.trace := by
  intro cycles
  induction cycles with
  | nil => intro fdsi w _ _; exact ⟨w, rfl, rfl⟩
  | cons c rest ih =>
    intro fdsi w hok hno
    have hc_ok := hok c (List.mem_cons_self _ _)
    have hc_no := hno c (List.mem_cons_self _ _)
    have hrest_ok : ∀ x ∈ rest, x.signal_read_ok :=
      fun x hx => hok x (List.mem_cons_of_mem _ hx)
    have hrest_no : ∀ x ∈ rest, ¬ x.shutdown := fun x hx => hno x (List.mem_cons_of_mem _ hx)
    rw [fanotify_while]
    have hcond : ¬ (c.signal_pollin = true ∧
        ((if c.signal_pollin = true then c.signal_read.getD fdsi else fdsi) = SIGINT ∨
         (if c.signal_pollin = true then c.signal_read.getD fdsi else fdsi) = SIGTERM)) := by
      rintro ⟨hp, hs⟩
      rw [if_pos hp] at hs
      rcases hr : c.signal_read with _ | s
      · exact hc_ok hp hr
      · rw [hr] at hs
        simp only [Option.getD_some] at hs
        apply hc_no
        refine ⟨hp, ?_⟩
        rw [hr]
        rcases hs with hs | hs
        · left; rw [hs]
        · right; rw [hs]
    simp only [if_neg hcond, hopt]
    generalize (if c.signal_pollin = true then c.signal_read.getD fdsi else fdsi) = fdsi1
    by_cases hf : c.fanotify_pollin = true ∧ c.length > 0
    · rw [if_pos hf]
      obtain ⟨w1, h1, h2⟩ := drain_events_total casefold proc opt.dirname_list c.buffer
        c.length.toNat 0 c.length w (le_refl _)
      simp only [h1]
      obtain ⟨w2, h3, h4⟩ := ih fdsi1 w1 hrest_ok hrest_no
      exact ⟨w2, h3, by rw [h4, h2]⟩
    · rw [if_neg hf]
      exact ih fdsi1 w hrest_ok hrest_no

theorem fanotify_while_append (casefold : Bytes → Bytes) (proc : ProcFs) (ms : main_struct_t) :
    ∀ (pre : List PollCycle) (c : PollCycle) (post : List PollCycle) (fdsi : Nat)
      (w w1 : World), c.shutdown →
      fanotify_while casefold proc ms fdsi pre w = LoopEnd.waiting w1 →
      fanotify_while casefold proc ms fdsi (pre ++ c :: post) w
        = LoopEnd.returned (stop_fanotify ms.opt ms.fanotify_fd w1) post := by
  intro pre
  induction pre with
  | nil =>
    intro c post fdsi w w1 hc hw
    simp only [fanotify_while, LoopEnd.waiting.injEq] at hw
    subst hw
    obtain ⟨hp, hs⟩ := hc
    simp only [List.nil_append, fanotify_while, hp, if_true]
    rw [if_pos]
    rcases hs with hs | hs <;> simp [hs]
  | cons x pre ih =>
    intro c post fdsi w w1 hc hw
    rw [fanotify_while] at hw
    rw [List.cons_append, fanotify_while]
    generalize (if x.signal_pollin = true then x.signal_read.getD fdsi else fdsi) = fdsi1 at hw ⊢
    by_cases h1 : x.signal_pollin = true ∧ (fdsi1 = SIGINT ∨ fdsi1 = SIGTERM)
    · rw [if_pos h1] at hw; cases hw
    · rw [if_neg h1] at hw ⊢
      by_cases h2 : x.fanotify_pollin = true ∧ x.length > 0
      · rw [if_pos h2] at hw ⊢
        rcases hopt : ms.opt with _ | opt
        · simp only [hopt] at hw ⊢
          by_cases h3 : FAN_EVENT_OK (x.buffer 0) x.length = true
          · rw [if_pos h3] at hw; cases hw
          · rw [if_neg h3] at hw ⊢
            rw [← hopt]; exact ih c post fdsi1 w w1 hc hw
        · simp only [hopt] at hw ⊢
          rcases hd : drain_events casefold proc opt.dirname_list x.buffer x.length.toNat 0
              x.length w with _ | w2
          · simp only [hd] at hw; cases hw
          · simp only [hd] at hw ⊢
            rw [← hopt]; exact ih c post fdsi1 w2 w1 hc hw
      · rw [if_neg h2] at hw ⊢
        exact ih c post fdsi1 w w1 hc hw

theorem stop_fanotify_trace (opt : options_t) (fd : Int) (w : World) :
    (stop_fanotify (some opt) fd w).trace =
      w.trace ++ (Call.stop_fanotify fd ::
        opt.dirname_list.map (Call.fanotify_mark_remove fd) ++ [Call.sys_close fd]) := by
  simp [stop_fanotify, sys_close, World.log]

theorem stop_calls_map_mark (fd : Int) (l : List Bytes) :
    stop_calls (l.map (Call.fanotify_mark_remove fd)) = 0 := by
  induction l with
  | nil => rfl
  | cons d l ih =>
    simp only [stop_calls] at ih
    simp [stop_calls, List.countP_cons, Call.is_stop, ih]

/-! ## The block hasher: C1, C2, C8 -/

/-- Claim C1, evaluated on its own example: for the ten bytes 0x00..0x09 and blocksize 4 the
list that `calculate_hash_list_for_file` returns holds three times the address of the one
buffer `a_hash`, which is released before the return; when the loop ends that buffer holds
the digest of the last block `[8, 9]`. So the three elements are not the digests of
`[0..3]`, `[4..7]` and `[8..9]`. -/
theorem calculate_hash_list_for_file_reuses_one_buffer (sha256 : Bytes → Bytes) :
    calculate_hash_list_for_file sha256 fs_S2 (some (ascii "/tmp/t2/a.bin")) 4 []
      = some ([0, 0, 0], [none]) ∧
    Option.map HashLoop.mem
        (hash_loop sha256 0 4 11 (hash_loop_entry ⟨ten_bytes, none⟩ 4 []).2)
      = some [some (sha256 [8, 9])] :=
  ⟨rfl, rfl⟩

/-- Claim C2: for a file of `n` bytes that is read without error and a blocksize `B > 0`,
`calculate_hash_list_for_file` returns a list, and that list has exactly `ceil (n / B)`
elements: one per full block plus one for a trailing partial block, and none for a file of
zero bytes. -/
theorem calculate_hash_list_for_file_length (sha256 : Bytes → Bytes) (fs : FileSystem)
    (f : GFile) (data : Bytes) (B : Nat) (mem : Mem)
    (hread : fs.file_read f = some ⟨data, none⟩) (hB : 0 < B) :
    ∃ hash_list mem1,
      calculate_hash_list_for_file sha256 fs (some f) B mem = some (hash_list, mem1) ∧
      hash_list.length = (data.length + B - 1) / B ∧
      hash_list.length = data.length / B + (if data.length % B = 0 then 0 else 1) ∧
      (data = [] → hash_list = []) := by
  obtain ⟨s, hs, hl, he⟩ := hash_loop_no_error sha256 (g_malloc0 mem HASH_LEN).1 B hB
    (data.length + 1) data (List.replicate B 0) g_checksum_new [] (g_malloc0 mem HASH_LEN).2
    (Nat.lt_succ_self _)
  have hcalc : calculate_hash_list_for_file sha256 fs (some f) B mem
      = some (s.hash_list.reverse, free_variable s.mem (g_malloc0 mem HASH_LEN).1) := by
    simp only [calculate_hash_list_for_file, g_file_read, hread, hash_loop_entry]
    simp only [after_read] at hs
    rw [hs]
    simp [he]
  have hlen : s.hash_list.reverse.length = (data.length + B - 1) / B := by
    simpa using hl
  refine ⟨_, _, hcalc, hlen, ?_, ?_⟩
  · rw [hlen, ceil_div_eq _ _ hB]
  · intro hd
    subst hd
    have : s.hash_list.reverse.length = 0 := by
      rw [hlen]; simp [Nat.div_eq_of_lt (show B - 1 < B by omega)]
    exact List.length_eq_zero.mp this

/-- Claim C2 at the ten bytes of scenario S2 with blocksize 4: three elements. -/
theorem calculate_hash_list_for_file_length_witness :
    fs_S2.file_read (ascii "/tmp/t2/a.bin") = some ⟨ten_bytes, none⟩ ∧ 0 < 4 ∧
    ∃ hash_list mem1,
      calculate_hash_list_for_file id fs_S2 (some (ascii "/tmp/t2/a.bin")) 4 []
        = some (hash_list, mem1) ∧
      hash_list.length = (ten_bytes.length + 4 - 1) / 4 ∧
      hash_list.length = ten_bytes.length / 4 + (if ten_bytes.length % 4 = 0 then 0 else 1) ∧
      (ten_bytes = [] → hash_list = []) :=
  ⟨rfl, by decide,
    calculate_hash_list_for_file_length id fs_S2 (ascii "/tmp/t2/a.bin") ten_bytes 4 [] rfl
      (by decide)⟩

/-- Claim C8: when the read that follows `k` hashed blocks reports an error (each of the `k`
reads before it delivered bytes), `calculate_hash_list_for_file` returns the empty list,
whatever `k` is: no partial list of hashes is returned. -/
theorem calculate_hash_list_for_file_read_error (sha256 : Bytes → Bytes) (fs : FileSystem)
    (f : GFile) (data : Bytes) (k B : Nat) (mem : Mem)
    (hread : fs.file_read f = some ⟨data, some k⟩)
    (hk : ∀ i < k, 0 < B ∧ i * B < data.length) :
    ∃ mem1, calculate_hash_list_for_file sha256 fs (some f) B mem = some ([], mem1) := by
  obtain ⟨s, hs, he⟩ := hash_loop_error sha256 (g_malloc0 mem HASH_LEN).1 B k
    (data.length + 1) data (List.replicate B 0) g_checksum_new [] (g_malloc0 mem HASH_LEN).2
    (Nat.lt_succ_self _) hk
  refine ⟨free_variable s.mem (g_malloc0 mem HASH_LEN).1, ?_⟩
  simp only [calculate_hash_list_for_file, g_file_read, hread, hash_loop_entry]
  simp only [after_read] at hs
  rw [hs]
  simp [he, free_list]

/-- Claim C8 at a file of ten bytes whose third read fails, with blocksize 4: two blocks
are hashed, then the error empties the list. -/
theorem calculate_hash_list_for_file_read_error_witness :
    fs_S2.file_read (ascii "/tmp/t2/b.bin") = some ⟨ten_bytes, some 2⟩ ∧
    (∀ i < 2, 0 < 4 ∧ i * 4 < ten_bytes.length) ∧
    ∃ mem1, calculate_hash_list_for_file id fs_S2 (some (ascii "/tmp/t2/b.bin")) 4 []
      = some ([], mem1) :=
  ⟨rfl, by decide,
    calculate_hash_list_for_file_read_error id fs_S2 (ascii "/tmp/t2/b.bin") ten_bytes 2 4 []
      rfl (by decide)⟩

/-! ## Event filtering: C3, C4 -/

/-- Claim C3 fails as stated: the path `/ho` is matched to the configured directory `/home`,
whose folded form is not the beginning of the folded path. -/
theorem event_match_shorter_path_matches :
    event_match casefold_sample (casefold_sample (ascii "/ho")) (ascii "/ho").length
        [ascii "/home"] = (true, [ascii "/home"]) ∧
    ¬ (casefold_sample (ascii "/home") <+: casefold_sample (ascii "/ho")) := by
  decide

/-- Claim C3 as amended: if the matching loop of `event_process` ends with `found = TRUE` on
the directory `D`, and the folded `D` is no longer than the comparison length
`min (|path|, |D|)`, then the folded path begins with the folded `D`. -/
theorem event_match_found_begins_with (casefold : Bytes → Bytes) (path : Bytes)
    (dir_list : List Bytes) (D : Bytes) (rest : List Bytes)
    (hfound : event_match casefold (casefold path) path.length dir_list = (true, D :: rest))
    (hlen : (casefold D).length ≤ min path.length D.length) :
    casefold D <+: casefold path := by
  have h := (strncmp_eq_zero_iff _ _ _).1
    (event_match_true casefold _ _ dir_list D rest hfound)
  rw [List.take_of_length_le hlen] at h
  rw [h]
  exact List.take_prefix _ _

/-- Claim C3 as amended, at the path `/Home/X` and the directories `/etc`, `/home`. -/
theorem event_match_found_begins_with_witness :
    event_match casefold_sample (casefold_sample (ascii "/Home/X")) (ascii "/Home/X").length
        [ascii "/etc", ascii "/home"] = (true, ascii "/home" :: []) ∧
    (casefold_sample (ascii "/home")).length
      ≤ min (ascii "/Home/X").length (ascii "/home").length ∧
    casefold_sample (ascii "/home") <+: casefold_sample (ascii "/Home/X") :=
  ⟨by decide, by decide,
    event_match_found_begins_with casefold_sample (ascii "/Home/X")
      [ascii "/etc", ascii "/home"] (ascii "/home") [] (by decide) (by decide)⟩

/-- Claim C4, evaluated where it fails: the configured directory `/ﬁ` is a case-insensitive
beginning of the path `/ﬁ/x` (the folded forms are `/fi` and `/fi/x`), yet the matching loop
of `event_process` ends with `found = FALSE`, and `event_process` prints no match: the
comparison length 4 is the length of the unfolded directory, one more than its folded
form. -/
theorem event_match_misses_folded_directory :
    casefold_sample dir_ligature <+: casefold_sample path_ligature ∧
    event_match casefold_sample (casefold_sample path_ligature) path_ligature.length
        [dir_ligature] = (false, []) ∧
    (event_process casefold_sample
        ⟨fun _ => some 6, fun _ => some path_ligature, fun _ => some 9⟩
        ⟨24, 2, 5, 100⟩ [dir_ligature] world0).trace
      = [Call.event_process ⟨24, 2, 5, 100⟩, Call.sys_close 5] := by
  decide

/-! ## The carver: C5, C6, C7 -/

/-- Claim C5, evaluated where it fails: carving `/tmp/t5`, which holds the directory `sub`,
makes the recursive call `carve_one_directory` on NULL (the local `filename`, never
assigned), not on `/tmp/t5/sub`; that call reads `error->message` through a NULL error, and
`/tmp/t5/sub` is never enumerated. This holds for every bound on the depth from 2 on. -/
theorem iterate_over_enum_recurses_on_null (sha256 : Bytes → Bytes) (depth : Nat) :
    carve_all_directories sha256 fs_subdir (depth + 2) (some (main_for [ascii "/tmp/t5"] 4))
        world0
      = Carve.fault { world0 with
          trace := [Call.carve_one_directory (some (ascii "/tmp/t5")),
                    Call.carve_one_directory none] } := by
  rfl

/-- Claim C6 fails as stated: in scenario S1 (the single configured directory `/tmp/t1`
exists and is empty) `carve_all_directories` returns with the metadata queue still empty,
so it does not emit exactly one record (no file is read, and the digest function plays no
part). -/
theorem carve_empty_directory_emits_nothing :
    carve_all_directories id fs_S1 1 (some (main_for [ascii "/tmp/t1"] 16384)) world0
      = Carve.done
          { mem := [], open_fds := [], queue := [],
            trace := [Call.carve_one_directory (some (ascii "/tmp/t1"))] } ∧
    ¬ (∃ w record,
        carve_all_directories id fs_S1 1 (some (main_for [ascii "/tmp/t1"] 16384)) world0
          = Carve.done w ∧ w.queue = [record]) := by
  refine ⟨rfl, ?_⟩
  rintro ⟨w, record, hw, hq⟩
  have h : Carve.done
      { mem := [], open_fds := [], queue := [],
        trace := [Call.carve_one_directory (some (ascii "/tmp/t1"))] } = Carve.done w := hw
  injection h with h
  subst h
  simp at hq

/-- Claim C6 as amended: for a configuration whose `dirname_list` holds a single existing,
empty directory, `carve_all_directories` returns after one call of `carve_one_directory` on
that directory and leaves the metadata queue as it was: it emits no record. -/
theorem carve_single_empty_directory_queue_unchanged (sha256 : Bytes → Bytes)
    (fs : FileSystem) (depth : Nat) (ms : main_struct_t) (opt : options_t) (d : Bytes)
    (w : World) (hopt : ms.opt = some opt) (hlist : opt.dirname_list = [d])
    (hempty : fs.enumerate_children d = some []) :
    ∃ w1, carve_all_directories sha256 fs (depth + 1) (some ms) w = Carve.done w1 ∧
      w1.queue = w.queue ∧ w1.trace = w.trace ++ [Call.carve_one_directory (some d)] := by
  refine ⟨w.log (Call.carve_one_directory (some d)), ?_, rfl, rfl⟩
  simp [carve_all_directories, hopt, hlist, g_slist_foreach_carve, carve_one_directory,
    g_file_new_for_path, g_file_enumerate_children, hempty, iterate_over_enum]

/-- Claim C6 as amended, at scenario S1. -/
theorem carve_single_empty_directory_queue_unchanged_witness :
    (main_for [ascii "/tmp/t1"] 16384).opt = some ⟨[ascii "/tmp/t1"], 16384⟩ ∧
    fs_S1.enumerate_children (ascii "/tmp/t1") = some [] ∧
    ∃ w1, carve_all_directories id fs_S1 (0 + 1) (some (main_for [ascii "/tmp/t1"] 16384))
        world0 = Carve.done w1 ∧
      w1.queue = world0.queue ∧
      w1.trace = world0.trace ++ [Call.carve_one_directory (some (ascii "/tmp/t1"))] :=
  ⟨rfl, rfl,
    carve_single_empty_directory_queue_unchanged id fs_S1 0 (main_for [ascii "/tmp/t1"] 16384)
      ⟨[ascii "/tmp/t1"], 16384⟩ (ascii "/tmp/t1") world0 rfl rfl rfl⟩

/-- Claim C7: for an entry of type symbolic link, `get_meta_data_from_fileinfo` returns a
record whose link is the link target, with no hashes and with the memory untouched (no hash
was computed), and `iterate_over_enum` goes on to the next entries without calling
`carve_one_directory`; for an entry of any other type `get_meta_data_from_fileinfo` returns
a record whose link is absent. -/
theorem symlink_entry_recorded_not_followed (sha256 : Bytes → Bytes) (fs : FileSystem)
    (recurse : Option Bytes → Option main_struct_t → World → Carve)
    (ms : main_struct_t) (dir container : Bytes) (fileinfo : GFileInfo)
    (a_file : Option GFile) (blocksize : Nat) (rest : List (Option GFileInfo)) (w : World) :
    (fileinfo.file_type = GFileType.G_FILE_TYPE_SYMBOLIC_LINK →
      (∃ meta, get_meta_data_from_fileinfo sha256 fs (some dir) fileinfo a_file blocksize
          w.mem = some (some meta, w.mem) ∧
        meta.file_type = GFileType.G_FILE_TYPE_SYMBOLIC_LINK ∧
        meta.link = fileinfo.symlink_target ∧ meta.hash_list = []) ∧
      iterate_over_enum sha256 fs recurse (some ms) (some dir) container
          (some fileinfo :: rest) w
        = iterate_over_enum sha256 fs recurse (some ms) (some dir) container rest w) ∧
    (fileinfo.file_type ≠ GFileType.G_FILE_TYPE_SYMBOLIC_LINK →
      ∃ meta mem1, get_meta_data_from_fileinfo sha256 fs (some dir) fileinfo a_file blocksize
          w.mem = some (some meta, mem1) ∧ meta.link = none) := by
  constructor
  · intro hsym
    have hmeta : ∀ (f : Option GFile) (B : Nat),
        get_meta_data_from_fileinfo sha256 fs (some dir) fileinfo f B w.mem
          = some (some { new_meta_data_t with
              file_type := fileinfo.file_type
              name := g_build_path dir fileinfo.name
              inode := fileinfo.inode
              owner := fileinfo.owner
              group := fileinfo.group
              uid := fileinfo.uid
              gid := fileinfo.gid
              atime := fileinfo.atime
              ctime := fileinfo.ctime
              mtime := fileinfo.mtime
              mode := fileinfo.mode
              size := fileinfo.size
              link := fileinfo.symlink_target }, w.mem) := by
      intro f B
      simp [get_meta_data_from_fileinfo, hsym]
    refine ⟨⟨_, hmeta a_file blocksize, hsym, rfl, rfl⟩, ?_⟩
    rw [iterate_over_enum]
    simp only [hmeta]
    rw [if_neg (by simp [hsym])]
  · intro hns
    simp only [get_meta_data_from_fileinfo, if_neg hns]
    by_cases hreg : fileinfo.file_type = GFileType.G_FILE_TYPE_REGULAR
    · obtain ⟨⟨hl, m1⟩, hout⟩ := calculate_hash_list_total sha256 fs a_file blocksize w.mem
      simp only [if_pos hreg, hout]
      exact ⟨_, _, rfl, rfl⟩
    · simp only [if_neg hreg]
      exact ⟨_, _, rfl, rfl⟩

/-- Claim C7 at scenario S3: the entry `link` of `/tmp/t3` is a symbolic link to the
directory `/etc`; its record holds the target `/etc` and no hashes, and the enumeration goes
on without a recursive call (here `recurse` would stop the carve if it were called). -/
theorem symlink_entry_recorded_not_followed_witness :
    (entry GFileType.G_FILE_TYPE_SYMBOLIC_LINK (ascii "link") (some (ascii "/etc"))).file_type
      = GFileType.G_FILE_TYPE_SYMBOLIC_LINK ∧
    (∃ meta, get_meta_data_from_fileinfo id fs_S3 (some (ascii "/tmp/t3"))
          (entry GFileType.G_FILE_TYPE_SYMBOLIC_LINK (ascii "link") (some (ascii "/etc")))
          (some (ascii "/tmp/t3/link")) 4 world0.mem = some (some meta, world0.mem) ∧
        meta.file_type = GFileType.G_FILE_TYPE_SYMBOLIC_LINK ∧
        meta.link = some (ascii "/etc") ∧ meta.hash_list = []) ∧
    iterate_over_enum id fs_S3 (fun _ _ w => Carve.fault w)
        (some (main_for [ascii "/tmp/t3"] 4)) (some (ascii "/tmp/t3")) (ascii "/tmp/t3")
        [some (entry GFileType.G_FILE_TYPE_SYMBOLIC_LINK (ascii "link") (some (ascii "/etc")))]
        world0
      = Carve.done world0 :=
  ⟨rfl,
    ((symlink_entry_recorded_not_followed id fs_S3 (fun _ _ w => Carve.fault w)
      (main_for [ascii "/tmp/t3"] 4) (ascii "/tmp/t3") (ascii "/tmp/t3")
      (entry GFileType.G_FILE_TYPE_SYMBOLIC_LINK (ascii "link") (some (ascii "/etc")))
      (some (ascii "/tmp/t3/link")) 4 [] world0).1 rfl).1,
    ((symlink_entry_recorded_not_followed id fs_S3 (fun _ _ w => Carve.fault w)
      (main_for [ascii "/tmp/t3"] 4) (ascii "/tmp/t3") (ascii "/tmp/t3")
      (entry GFileType.G_FILE_TYPE_SYMBOLIC_LINK (ascii "link") (some (ascii "/etc")))
      (some (ascii "/tmp/t3/link")) 4 [] world0).1 rfl).2⟩

/-! ## The fanotify loop: C9, C10 -/

/-- Claim C9: whatever the event, the directories and the state, when `event_process`
returns the descriptor of the event is not among the open descriptors, and the last call
made is the `close` of that descriptor; this holds whether a directory matched or not. -/
theorem event_process_closes_descriptor (casefold : Bytes → Bytes) (proc : ProcFs)
    (event : fanotify_event_metadata) (dir_list : List Bytes) (w : World) :
    event.fd ∉ (event_process casefold proc event dir_list w).open_fds ∧
    (event_process casefold proc event dir_list w).trace.getLast? =
      some (Call.sys_close event.fd) := by
  constructor
  · simp only [event_process]
    exact sys_close_not_open _ _
  · simp [event_process, sys_close]

/-- The loop of `fanotify_loop` when no read has a wrong size: take any sequence of turns in
which each read of a readable signal descriptor stores a signal. If no turn reads SIGINT or
SIGTERM, `fanotify_loop` is
still in its loop after all of them and `stop_fanotify` was not called. If the first turn
that reads SIGINT or SIGTERM is `c`, after the turns `pre`, then `fanotify_loop` returns on
that turn, leaving the turns after it unread; on the state `w1` reached after `pre` it has
called `stop_fanotify`, which removes the mark of every configured directory and then closes
the notification descriptor; and this is the only call of `stop_fanotify`. -/
theorem fanotify_loop_leaves_on_shutdown_signal (casefold : Bytes → Bytes) (proc : ProcFs)
    (ms : main_struct_t) (opt : options_t) (fdsi : Nat) (cycles : List PollCycle) (w : World)
    (hopt : ms.opt = some opt) (hreads : ∀ x ∈ cycles, x.signal_read_ok) :
    ((∀ x ∈ cycles, ¬ x.shutdown) →
      ∃ w1, fanotify_loop casefold proc (some ms) fdsi cycles w = LoopEnd.waiting w1 ∧
        stop_calls w1.trace = stop_calls w.trace) ∧
    (∀ (pre : List PollCycle) (c : PollCycle) (post : List PollCycle),
      cycles = pre ++ c :: post → (∀ x ∈ pre, ¬ x.shutdown) → c.shutdown →
      ∃ w1, fanotify_loop casefold proc (some ms) fdsi pre w = LoopEnd.waiting w1 ∧
        fanotify_loop casefold proc (some ms) fdsi cycles w
          = LoopEnd.returned (stop_fanotify (some opt) ms.fanotify_fd w1) post ∧
        (stop_fanotify (some opt) ms.fanotify_fd w1).trace
          = w1.trace ++ (Call.stop_fanotify ms.fanotify_fd ::
              opt.dirname_list.map (Call.fanotify_mark_remove ms.fanotify_fd)
              ++ [Call.sys_close ms.fanotify_fd]) ∧
        stop_calls (stop_fanotify (some opt) ms.fanotify_fd w1).trace
          = stop_calls w.trace + 1) := by
  constructor
  · intro hno
    exact fanotify_while_waiting casefold proc ms opt hopt cycles fdsi w hreads hno
  · intro pre c post hcyc hno hc
    subst hcyc
    have hpre_ok : ∀ x ∈ pre, x.signal_read_ok :=
      fun x hx => hreads x (List.mem_append_left _ hx)
    obtain ⟨w1, h1, h2⟩ :=
      fanotify_while_waiting casefold proc ms opt hopt pre fdsi w hpre_ok hno
    refine ⟨w1, h1, ?_, stop_fanotify_trace opt _ w1, ?_⟩
    · have := fanotify_while_append casefold proc ms pre c post fdsi w w1 hc h1
      rw [hopt] at this
      exact this
    · rw [stop_fanotify_trace]
      simp only [stop_calls, List.countP_append, List.countP_cons, Call.is_stop] at h2 ⊢
      have hm := stop_calls_map_mark ms.fanotify_fd opt.dirname_list
      simp only [stop_calls] at hm
      simp [hm, h2, List.countP_nil]

/-- The statement above at three turns (a notification, the signal 10, SIGTERM) followed by
one more turn that is never read: the loop is left on the third turn after one
`stop_fanotify`. -/
theorem fanotify_loop_leaves_on_shutdown_signal_witness :
    (main_for [ascii "/home"] 4).opt = some ⟨[ascii "/home"], 4⟩ ∧
    (∀ x ∈ turns_before ++ turn_sigterm :: [turn_sigterm], x.signal_read_ok) ∧
    (∀ x ∈ turns_before, ¬ x.shutdown) ∧ turn_sigterm.shutdown ∧
    ∃ w1, fanotify_loop casefold_sample proc_home (some (main_for [ascii "/home"] 4)) 0
          turns_before world0 = LoopEnd.waiting w1 ∧
      fanotify_loop casefold_sample proc_home (some (main_for [ascii "/home"] 4)) 0
          (turns_before ++ turn_sigterm :: [turn_sigterm]) world0
        = LoopEnd.returned
            (stop_fanotify (some ⟨[ascii "/home"], 4⟩) (main_for [ascii "/home"] 4).fanotify_fd
              w1) [turn_sigterm] ∧
      (stop_fanotify (some ⟨[ascii "/home"], 4⟩) (main_for [ascii "/home"] 4).fanotify_fd
          w1).trace
        = w1.trace ++ (Call.stop_fanotify (main_for [ascii "/home"] 4).fanotify_fd ::
            (⟨[ascii "/home"], 4⟩ : options_t).dirname_list.map
              (Call.fanotify_mark_remove (main_for [ascii "/home"] 4).fanotify_fd)
            ++ [Call.sys_close (main_for [ascii "/home"] 4).fanotify_fd]) ∧
      stop_calls (stop_fanotify (some ⟨[ascii "/home"], 4⟩)
          (main_for [ascii "/home"] 4).fanotify_fd w1).trace
        = stop_calls world0.trace + 1 :=
  have hreads : ∀ x ∈ turns_before ++ turn_sigterm :: [turn_sigterm], x.signal_read_ok := by
    simp [turns_before, turn_sigterm, PollCycle.signal_read_ok]
  have hpre : ∀ x ∈ turns_before, ¬ x.shutdown := by
    simp [turns_before, PollCycle.shutdown, SIGINT, SIGTERM]
  have hc : turn_sigterm.shutdown := by
    simp [turn_sigterm, PollCycle.shutdown, SIGTERM]
  ⟨rfl, hreads, hpre, hc,
    (fanotify_loop_leaves_on_shutdown_signal casefold_sample proc_home
      (main_for [ascii "/home"] 4) ⟨[ascii "/home"], 4⟩ 0
      (turns_before ++ turn_sigterm :: [turn_sigterm]) world0 rfl hreads).2
      turns_before turn_sigterm [turn_sigterm] rfl hpre hc⟩

/-! ## Lemmas on events, the queue and the loop states -/

theorem event_process_calls_append (a b : List Call) :
    event_process_calls (a ++ b) = event_process_calls a ++ event_process_calls b := by
  induction a with
  | nil => rfl
  | cons c a ih => cases c <;> simp [event_process_calls, ih]

theorem event_process_calls_step (casefold : Bytes → Bytes) (proc : ProcFs)
    (dir_list : List Bytes) (w : World) (e : fanotify_event_metadata) :
    event_process_calls (drain_step casefold proc dir_list w e).trace
      = event_process_calls w.trace ++ [e] := by
  have h1 : event_process_calls (event_process casefold proc e dir_list w).trace
      = event_process_calls w.trace ++ [e] := by
    simp only [event_process]
    split
    · simp only [get_program_name_from_pid]
      split <;>
        simp [World.log, sys_close, event_process_calls_append, event_process_calls]
    · simp [World.log, sys_close, event_process_calls_append, event_process_calls]
  simp only [drain_step]
  split_ifs
  · simp only [sys_close, event_process_calls_append, h1]
    simp [event_process_calls]
  · exact h1

theorem drain_events_holds (casefold : Bytes → Bytes) (proc : ProcFs) (dir_list : List Bytes)
    (buffer : Nat → fanotify_event_metadata) :
    ∀ (evs : List fanotify_event_metadata) (fuel off n : Nat) (w : World),
      holds_events buffer off evs → events_len evs ≤ n → n < events_len evs + 24 →
      n ≤ fuel →
      drain_events casefold proc dir_list buffer fuel off (n : Int) w
        = some (evs.foldl (drain_step casefold proc dir_list) w) := by
  intro evs
  induction evs with
  | nil =>
    intro fuel off n w _ _ hn _
    have hno : FAN_EVENT_OK (buffer off) (n : Int) = false := by
      simp [FAN_EVENT_OK, FAN_EVENT_METADATA_LEN]
      intro h1
      simp [events_len] at hn
      omega
    cases fuel with
    | zero => simp [drain_events, hno]
    | succ fuel => rw [drain_events]; simp [hno]
  | cons e rest ih =>
    intro fuel off n w hh h1 h2 hf
    obtain ⟨hb, hlen, hrest⟩ := hh
    simp only [events_len] at h1 h2
    simp only [FAN_EVENT_METADATA_LEN] at hlen
    have hok : FAN_EVENT_OK (buffer off) (n : Int) = true := by
      rw [hb]
      simp [FAN_EVENT_OK, FAN_EVENT_METADATA_LEN]
      omega
    cases fuel with
    | zero => omega
    | succ fuel =>
      rw [drain_events]
      simp only [hok, if_true]
      rw [hb]
      have hsub : ((n : Int) - (e.event_len : Int)) = ((n - e.event_len : Nat) : Int) := by
        omega
      rw [hsub]
      have := ih fuel (off + e.event_len) (n - e.event_len)
        (drain_step casefold proc dir_list w e) hrest (by omega) (by omega) (by omega)
      simp only [drain_step] at this ⊢
      rw [List.foldl_cons]
      simp only [drain_step]
      exact this

theorem set_length_append (stored rest : Bytes) (z : Nat) :
    (stored ++ z :: rest).set stored.length 0 = stored ++ 0 :: rest := by
  induction stored with
  | nil => rfl
  | cons b stored ih => simp [ih]

theorem c_string_append_zero (stored rest : Bytes) (h : ∀ b ∈ stored, b ≠ 0) :
    c_string (stored ++ 0 :: rest) = stored := by
  induction stored with
  | nil => simp [c_string]
  | cons b stored ih =>
    have hb : b ≠ 0 := h b (List.mem_cons_self _ _)
    have hrest : ∀ x ∈ stored, x ≠ 0 := fun x hx => h x (List.mem_cons_of_mem _ hx)
    have := ih hrest
    simp only [c_string] at this ⊢
    rw [List.cons_append, List.takeWhile_cons, this]
    simp [hb]

theorem store_load (m : Mem) (p : Ptr) (v : Bytes) (h : (m.load p).isSome = true) :
    (m.store p v).load p = some v := by
  rcases hg : m[p]? with _ | c
  · simp [Mem.load, hg] at h
  · have hp : p < m.length := by
      by_contra hge
      have hnone : m[p]? = none := List.getElem?_eq_none (Nat.le_of_not_lt hge)
      rw [hnone] at hg
      cases hg
    rcases c with _ | x
    · simp [Mem.load, hg] at h
    · have hl : m.load p = some x := by simp [Mem.load, hg]
      simp only [Mem.store, hl]
      simp [Mem.load, List.getElem?_set, hp]

theorem hash_loop_at_shape (sha256 : Bytes → Bytes) (data : Bytes) (B : Nat) (mem : Mem) :
    ∀ i : Nat, ∃ buf hl m,
      hash_loop_at sha256 ⟨data, none⟩ B mem i
        = after_read (g_input_stream_read ⟨data.drop (i * B), none⟩ buf B) g_checksum_new hl m
      ∧ (m.load (hash_loop_entry ⟨data, none⟩ B mem).1).isSome = true := by
  intro i
  induction i with
  | zero =>
    refine ⟨List.replicate B 0, [], (g_malloc0 mem HASH_LEN).2, ?_, ?_⟩
    · simp [hash_loop_at, hash_loop_entry, after_read]
    · simp [hash_loop_entry, g_malloc0, Mem.load]
  | succ i ih =>
    obtain ⟨buf, hl, m, hs, hm⟩ := ih
    have hstream : (hash_loop_at sha256 ⟨data, none⟩ B mem i).stream
        = ⟨data.drop ((i + 1) * B), none⟩ := by
      rw [hs, read_ok]
      simp only [after_read, List.drop_drop]
      congr 2
      ring
    have hmem : (hash_loop_at sha256 ⟨data, none⟩ B mem i).mem = m := by rw [hs]; rfl
    refine ⟨(hash_loop_at sha256 ⟨data, none⟩ B mem i).buffer,
      (hash_loop_entry ⟨data, none⟩ B mem).1
        :: (hash_loop_at sha256 ⟨data, none⟩ B mem i).hash_list,
      g_checksum_get_digest sha256
        (g_checksum_update (hash_loop_at sha256 ⟨data, none⟩ B mem i).checksum
          ((hash_loop_at sha256 ⟨data, none⟩ B mem i).buffer.take
            (hash_loop_at sha256 ⟨data, none⟩ B mem i).read.toNat))
        (hash_loop_at sha256 ⟨data, none⟩ B mem i).mem
        (hash_loop_entry ⟨data, none⟩ B mem).1,
      ?_, ?_⟩
    · rw [hash_loop_at, hash_loop_body, hstream]
      rfl
    · simp only [g_checksum_get_digest, hmem]
      rw [store_load _ _ _ hm]
      rfl

theorem hash_loop_reaches (sha256 : Bytes → Bytes) (data : Bytes) (B : Nat) (mem : Mem)
    (hB : 0 < B) :
    ∀ i : Nat, (∀ j < i, j * B < data.length) → ∀ fuel : Nat,
      hash_loop sha256 (hash_loop_entry ⟨data, none⟩ B mem).1 B (i + fuel)
          (hash_loop_entry ⟨data, none⟩ B mem).2
        = hash_loop sha256 (hash_loop_entry ⟨data, none⟩ B mem).1 B fuel
            (hash_loop_at sha256 ⟨data, none⟩ B mem i) := by
  intro i
  induction i with
  | zero => intro _ fuel; simp [hash_loop_at]
  | succ i ih =>
    intro hj fuel
    have hprev := ih (fun j hji => hj j (Nat.lt_succ_of_lt hji)) (fuel + 1)
    have hfuel : i + 1 + fuel = i + (fuel + 1) := by omega
    rw [hfuel, hprev, hash_loop_succ]
    obtain ⟨buf, hl, m, hs, _⟩ := hash_loop_at_shape sha256 data B mem i
    have hi := hj i (Nat.lt_succ_self i)
    have hcond : (hash_loop_at sha256 ⟨data, none⟩ B mem i).read ≠ 0 ∧
        (hash_loop_at sha256 ⟨data, none⟩ B mem i).error = none := by
      rw [hs, read_ok]
      simp only [after_read, List.length_take, List.length_drop]
      refine ⟨?_, trivial⟩
      have : min B (data.length - i * B) ≠ 0 := by omega
      exact_mod_cast this
    rw [if_pos hcond]
    rfl

/-- Claim C10, evaluated where it fails: on the first turn the signal descriptor is readable
but its read has a wrong size and stores nothing, so no signal is read on that turn; the
code goes on to test `fdsi.ssi_signo`, which still holds what the uninitialised local held
on entry, here the value of SIGINT. `fanotify_loop` calls `stop_fanotify` and returns on
that turn, which is not a turn on which SIGINT or SIGTERM is read, and leaves the turn that
does read SIGTERM unread. -/
theorem fanotify_loop_leaves_on_wrong_size_read :
    ¬ turn_wrong_size.shutdown ∧ turn_sigterm.shutdown ∧
    fanotify_loop casefold_sample proc_home (some (main_for [ascii "/home"] 4)) SIGINT
        [turn_wrong_size, turn_sigterm] world0
      = LoopEnd.returned
          { mem := [], open_fds := [], queue := [],
            trace := [Call.stop_fanotify 4, Call.fanotify_mark_remove 4 (ascii "/home"),
              Call.sys_close 4] }
          [turn_sigterm] :=
  ⟨by simp [turn_wrong_size, PollCycle.shutdown],
    by simp [turn_sigterm, PollCycle.shutdown, SIGTERM], rfl⟩

/-! ## Events and the queue: C11, C17 -/

/-- Claim C17: the matching loop of `event_process` ends for every path and every list of
directories, in one of two states. Either `found = TRUE` and the cursor `head` is the
non-empty rest of the list that starts with `D`, where `D` passes the test of the loop and no
directory before it does; or `found = FALSE`, `head` is NULL and no directory of the list
passes the test. -/
theorem event_match_exit_state (casefold : Bytes → Bytes) (pathutf8 : Bytes) (lenp : Nat) :
    ∀ (dir_list : List Bytes),
      (∃ pre D rest, dir_list = pre ++ D :: rest ∧
        event_match casefold pathutf8 lenp dir_list = (true, D :: rest) ∧
        prefix_test casefold pathutf8 lenp D = true ∧
        ∀ d ∈ pre, prefix_test casefold pathutf8 lenp d = false) ∨
      (event_match casefold pathutf8 lenp dir_list = (false, []) ∧
        ∀ d ∈ dir_list, prefix_test casefold pathutf8 lenp d = false) := by
  intro dir_list
  induction dir_list with
  | nil => right; exact ⟨rfl, by simp⟩
  | cons d ds ih =>
    by_cases hc : strncmp (casefold d) pathutf8 (if lenp < d.length then lenp else d.length) = 0
    · left
      refine ⟨[], d, ds, rfl, ?_, ?_, by simp⟩
      · rw [event_match]; simp only [hc, if_true]
      · simp [prefix_test, hc]
    · have hd : prefix_test casefold pathutf8 lenp d = false := by simp [prefix_test, hc]
      have hstep : event_match casefold pathutf8 lenp (d :: ds)
          = event_match casefold pathutf8 lenp ds := by
        rw [event_match]; simp only [hc, if_false]
      rcases ih with ⟨pre, D, rest, h1, h2, h3, h4⟩ | ⟨h1, h2⟩
      · left
        refine ⟨d :: pre, D, rest, by rw [h1]; rfl, by rw [hstep, h2], h3, ?_⟩
        intro x hx
        rcases List.mem_cons.1 hx with hx | hx
        · rw [hx]; exact hd
        · exact h4 x hx
      · right
        refine ⟨by rw [hstep, h1], ?_⟩
        intro x hx
        rcases List.mem_cons.1 hx with hx | hx
        · rw [hx]; exact hd
        · exact h2 x hx

/-! ## Errors while carving: C12 -/

/-- Claim C13: at the start of every iteration of the loop of
`calculate_hash_list_for_file`, for every stream and blocksize, the checksum is in its
initial state. For a file read without error, a blocksize `B > 0` and a block `i` of the
file, the loop reaches the start of iteration `i`, the iteration runs, the bytes it feeds
are those of block `i`, and the digest that it leaves in `a_hash` is the digest of these
bytes alone. Hence a block `j` of any file with the same bytes, under any blocksize, gets
the same digest. -/
theorem hash_loop_checksum_fresh_each_block (sha256 : Bytes → Bytes) (data : Bytes)
    (B : Nat) (mem : Mem) (i : Nat)
    (hB : 0 < B) (hi : i * B < data.length) :
    (∀ fuel : Nat,
      hash_loop sha256 (hash_loop_entry ⟨data, none⟩ B mem).1 B (i + fuel)
          (hash_loop_entry ⟨data, none⟩ B mem).2
        = hash_loop sha256 (hash_loop_entry ⟨data, none⟩ B mem).1 B fuel
            (hash_loop_at sha256 ⟨data, none⟩ B mem i)) ∧
    (∀ (stream : GFileInputStream) (B0 : Nat) (m0 : Mem) (k : Nat),
      (hash_loop_at sha256 stream B0 m0 k).checksum = g_checksum_new) ∧
    ((hash_loop_at sha256 ⟨data, none⟩ B mem i).read ≠ 0 ∧
      (hash_loop_at sha256 ⟨data, none⟩ B mem i).error = none) ∧
    (hash_loop_at sha256 ⟨data, none⟩ B mem i).buffer.take
        (hash_loop_at sha256 ⟨data, none⟩ B mem i).read.toNat
      = (data.drop (i * B)).take B ∧
    (hash_loop_at sha256 ⟨data, none⟩ B mem (i + 1)).mem.load
        (hash_loop_entry ⟨data, none⟩ B mem).1
      = some (sha256 ((data.drop (i * B)).take B)) ∧
    (∀ (data2 : Bytes) (B2 : Nat) (mem2 : Mem) (j : Nat), 0 < B2 → j * B2 < data2.length →
      (data2.drop (j * B2)).take B2 = (data.drop (i * B)).take B →
      (hash_loop_at sha256 ⟨data2, none⟩ B2 mem2 (j + 1)).mem.load
          (hash_loop_entry ⟨data2, none⟩ B2 mem2).1
        = (hash_loop_at sha256 ⟨data, none⟩ B mem (i + 1)).mem.load
          (hash_loop_entry ⟨data, none⟩ B mem).1) := by
  have hdigest : ∀ (d : Bytes) (b : Nat) (m0 : Mem) (k : Nat),
      (hash_loop_at sha256 ⟨d, none⟩ b m0 k).checksum = g_checksum_new ∧
      (hash_loop_at sha256 ⟨d, none⟩ b m0 k).buffer.take
          (hash_loop_at sha256 ⟨d, none⟩ b m0 k).read.toNat = (d.drop (k * b)).take b ∧
      (hash_loop_at sha256 ⟨d, none⟩ b m0 (k + 1)).mem.load
          (hash_loop_entry ⟨d, none⟩ b m0).1
        = some (sha256 ((d.drop (k * b)).take b)) := by
    intro d b m0 k
    obtain ⟨buf, hl, m, hs, hm⟩ := hash_loop_at_shape sha256 d b m0 k
    have hck : (hash_loop_at sha256 ⟨d, none⟩ b m0 k).checksum = g_checksum_new := by
      rw [hs]; rfl
    have hblock : (hash_loop_at sha256 ⟨d, none⟩ b m0 k).buffer.take
        (hash_loop_at sha256 ⟨d, none⟩ b m0 k).read.toNat = (d.drop (k * b)).take b := by
      rw [hs, read_ok]
      simp only [after_read, Int.toNat_ofNat]
      rw [List.take_left']
      rfl
    refine ⟨hck, hblock, ?_⟩
    rw [hash_loop_at, hash_loop_body]
    simp only [after_read, g_checksum_get_digest]
    rw [hblock, hck]
    have hm2 : ((hash_loop_at sha256 ⟨d, none⟩ b m0 k).mem.load
        (hash_loop_entry ⟨d, none⟩ b m0).1).isSome = true := by
      rw [hs]; exact hm
    rw [store_load _ _ _ hm2]
    simp [g_checksum_update, g_checksum_new]
  obtain ⟨hck, hblock, hload⟩ := hdigest data B mem i
  have hfresh : ∀ (stream : GFileInputStream) (B0 : Nat) (m0 : Mem) (k : Nat),
      (hash_loop_at sha256 stream B0 m0 k).checksum = g_checksum_new := by
    intro stream B0 m0 k
    cases k <;> rfl
  refine ⟨?_, hfresh, ?_, hblock, hload, ?_⟩
  · exact hash_loop_reaches sha256 data B mem hB i
      (fun j hji => lt_of_le_of_lt (Nat.mul_le_mul_right B (Nat.le_of_lt hji)) hi)
  · obtain ⟨buf, hl, m, hs, _⟩ := hash_loop_at_shape sha256 data B mem i
    rw [hs, read_ok]
    simp only [after_read, List.length_take, List.length_drop]
    refine ⟨?_, trivial⟩
    have : min B (data.length - i * B) ≠ 0 := by omega
    exact_mod_cast this
  · intro data2 B2 mem2 j _ _ hsame
    rw [(hdigest data2 B2 mem2 j).2.2, hload, hsame]

/-- Claim C13 at the third block `[8, 9]` of the ten bytes of scenario S2, blocksize 4: the
iteration starts with a fresh checksum and leaves the digest of `[8, 9]` in `a_hash`. -/
theorem hash_loop_checksum_fresh_each_block_witness :
    0 < 4 ∧ 2 * 4 < ten_bytes.length ∧
    (hash_loop_at id ⟨ten_bytes, none⟩ 4 [] 2).checksum = g_checksum_new ∧
    (hash_loop_at id ⟨ten_bytes, none⟩ 4 [] (2 + 1)).mem.load
        (hash_loop_entry ⟨ten_bytes, none⟩ 4 []).1
      = some (id ((ten_bytes.drop (2 * 4)).take 4)) :=
  ⟨by decide, by decide,
    (hash_loop_checksum_fresh_each_block id ten_bytes 4 [] 2 (by decide) (by decide)).2.1
      ⟨ten_bytes, none⟩ 4 [] 2,
    (hash_loop_checksum_fresh_each_block id ten_bytes 4 [] 2 (by decide)
      (by decide)).2.2.2.2.1⟩

/-! ## Draining a buffer of events: C14, C15 -/

/-- Claim C14: when the buffer holds the events `evs` back to back from its start, each with
an `event_len` of at least the size of the metadata structure, and the read returned `n`
bytes, these events and fewer than one more structure, the inner loop of `fanotify_loop`
ends, and the calls of `event_process` that it made are exactly one per event of `evs`, in
the order of the buffer. -/
theorem drain_events_processes_each_event_once (casefold : Bytes → Bytes) (proc : ProcFs)
    (dir_list : List Bytes)
    (buffer : Nat → fanotify_event_metadata) (evs : List fanotify_event_metadata) (n : Nat)
    (w : World) (hholds : holds_events buffer 0 evs)
    (hn : events_len evs ≤ n ∧ n < events_len evs + 24) :
    ∃ w1, drain_events casefold proc dir_list buffer (n : Int).toNat 0 (n : Int) w = some w1 ∧
      event_process_calls w1.trace = event_process_calls w.trace ++ evs ∧
      (event_process_calls w1.trace).length
        = (event_process_calls w.trace).length + evs.length := by
  have h := drain_events_holds casefold proc dir_list buffer evs (n : Int).toNat 0 n w hholds
    hn.1 hn.2 (by simp)
  refine ⟨_, h, ?_, ?_⟩
  · clear h hholds hn
    induction evs generalizing w with
    | nil => simp
    | cons e rest ih =>
      rw [List.foldl_cons, ih, event_process_calls_step]
      simp
  · have : event_process_calls (evs.foldl (drain_step casefold proc dir_list) w).trace
        = event_process_calls w.trace ++ evs := by
      clear h hholds hn
      induction evs generalizing w with
      | nil => simp
      | cons e rest ih =>
        rw [List.foldl_cons, ih, event_process_calls_step]
        simp
    rw [this]; simp

/-- Claim C14 at a buffer of 56 bytes that holds an event of 24 bytes and one of 32 bytes. -/
theorem drain_events_processes_each_event_once_witness :
    holds_events two_events 0 [⟨24, 2, 5, 100⟩, ⟨32, 8, 6, 101⟩] ∧
    (events_len [⟨24, 2, 5, 100⟩, ⟨32, 8, 6, 101⟩] ≤ 56 ∧
      56 < events_len [⟨24, 2, 5, 100⟩, ⟨32, 8, 6, 101⟩] + 24) ∧
    ∃ w1, drain_events casefold_sample proc_home [ascii "/home"] two_events
          ((56 : Nat) : Int).toNat 0 ((56 : Nat) : Int) world0 = some w1 ∧
      event_process_calls w1.trace
        = event_process_calls world0.trace ++ [⟨24, 2, 5, 100⟩, ⟨32, 8, 6, 101⟩] ∧
      (event_process_calls w1.trace).length
        = (event_process_calls world0.trace).length
          + [(⟨24, 2, 5, 100⟩ : fanotify_event_metadata), ⟨32, 8, 6, 101⟩].length :=
  have hholds : holds_events two_events 0 [⟨24, 2, 5, 100⟩, ⟨32, 8, 6, 101⟩] :=
    ⟨rfl, by decide, rfl, by decide, trivial⟩
  ⟨hholds, by decide,
    drain_events_processes_each_event_once casefold_sample proc_home [ascii "/home"]
      two_events [⟨24, 2, 5, 100⟩, ⟨32, 8, 6, 101⟩] 56 world0 hholds (by decide)⟩

/-- Claim C15, evaluated where it fails: for a buffer that holds one event with descriptor 5
the inner loop of `fanotify_loop` calls `close(5)` twice while handling that event, once at
the end of `event_process` and once in the body of the loop. -/
theorem drain_events_closes_descriptor_twice :
    drain_events casefold_sample proc_home [ascii "/home"] one_event 24 0 24 world0
      = some
          { mem := [], open_fds := [], queue := [],
            trace := [Call.event_process ⟨24, 2, 5, 100⟩, Call.sys_open 100 (some 9),
              Call.sys_close 9,
              Call.print_debug_event (ascii "/home/a") (ascii "/home") 100,
              Call.sys_close 5, Call.sys_close 5] } ∧
    close_calls 5
        [Call.event_process ⟨24, 2, 5, 100⟩, Call.sys_open 100 (some 9), Call.sys_close 9,
          Call.print_debug_event (ascii "/home/a") (ascii "/home") 100,
          Call.sys_close 5, Call.sys_close 5] = 2 := by
  decide

/-! ## The path of a descriptor: C16 -/

theorem sys_readlink_length (target : Option Bytes) (bufsiz : Nat) (stored : Bytes)
    (h : sys_readlink target bufsiz = some stored) : stored.length ≤ bufsiz := by
  simp only [sys_readlink] at h
  split_ifs at h
  rcases target with _ | t
  · simp at h
  · simp only [Option.map_some', Option.some.injEq] at h
    rw [← h, List.length_take]
    omega

theorem store_front_length (buffer stored path : Bytes)
    (h : store_front buffer stored = some path) :
    path.length = buffer.length ∧ path.take stored.length = stored := by
  simp only [store_front] at h
  split_ifs at h with hle
  simp only [Option.some.injEq] at h
  subst h
  refine ⟨?_, by simp⟩
  simp only [List.length_append, List.length_drop]
  omega

theorem get_file_path_from_fd_checked_some (proc : ProcFs) (fd : Int) :
    ∃ s, get_file_path_from_fd_checked proc fd = some s := by
  simp only [get_file_path_from_fd_checked, get_file_path_from_fd_run]
  split_ifs with hfd
  · exact ⟨_, rfl⟩
  · rcases proc.lstat_size fd with _ | linklen
    · exact ⟨_, rfl⟩
    · simp only
      rcases hread : sys_readlink (proc.readlink_target fd) linklen with _ | stored
      · exact ⟨_, rfl⟩
      · have hlen := sys_readlink_length _ _ _ hread
        have hfit : stored.length ≤ (List.replicate (linklen + 1) 0).length := by
          simp only [List.length_replicate]; omega
        simp only [store_front, if_pos hfit]
        have hin : stored.length
            < (stored ++ (List.replicate (linklen + 1) 0).drop stored.length).length := by
          simp only [List.length_append, List.length_drop, List.length_replicate]; omega
        simp only [store_byte, if_pos hin]
        exact ⟨_, rfl⟩

/-- Claim C16: for a descriptor `fd > 0` for which `lstat` reports the size `L` and
`readlink` succeeds on a target without NUL byte, `get_file_path_from_fd` reaches the
statement `path[len] = 0` with a buffer `path` of `L + 1` bytes that starts with the first
`min (L, |target|)` bytes of the target and with `len = min (L, |target|)`, so `len ≤ L`;
the store of the terminator is inside the buffer; the function returns exactly the first
`min (L, |target|)` bytes of the target, and so the whole target if and only if
`|target| ≤ L`. -/
theorem get_file_path_from_fd_cut_at_lstat_size (proc : ProcFs) (fd : Int) (L : Nat)
    (target : Bytes) (hfd : 0 < fd)
    (hlstat : proc.lstat_size fd = some L) (htarget : proc.readlink_target fd = some target)
    (hok : sys_readlink (some target) L ≠ none) (hnul : ∀ b ∈ target, b ≠ 0) :
    ∃ path : Bytes,
      get_file_path_from_fd_run proc fd = PathRun.reached ⟨path, min L target.length⟩ ∧
      path.length = L + 1 ∧
      path.take (min L target.length) = target.take L ∧
      min L target.length ≤ L ∧
      min L target.length < path.length ∧
      store_byte path (min L target.length) 0 = some (path.set (min L target.length) 0) ∧
      get_file_path_from_fd_checked proc fd = some (target.take L) ∧
      get_file_path_from_fd proc fd = target.take L ∧
      (target.take L).length = min L target.length ∧
      (get_file_path_from_fd proc fd = target ↔ target.length ≤ L) := by
  have hL : L ≠ 0 := by
    intro h0
    apply hok
    simp [sys_readlink, h0]
  have hread : sys_readlink (proc.readlink_target fd) L = some (target.take L) := by
    simp [sys_readlink, htarget, hL]
  have hlen : (target.take L).length = min L target.length := List.length_take _ _
  have hle : min L target.length ≤ L := Nat.min_le_left _ _
  have hfd2 : ¬ fd ≤ 0 := by omega
  have hfit : (target.take L).length ≤ (List.replicate (L + 1) 0).length := by
    rw [hlen, List.length_replicate]; omega
  have hrun : get_file_path_from_fd_run proc fd
      = PathRun.reached
          ⟨target.take L ++ (List.replicate (L + 1) 0).drop (target.take L).length,
            min L target.length⟩ := by
    simp only [get_file_path_from_fd_run, if_neg hfd2, hlstat, hread, store_front,
      if_pos hfit]
    rw [hlen]
  have hsize : (target.take L
      ++ (List.replicate (L + 1) 0).drop (target.take L).length).length = L + 1 := by
    simp only [List.length_append, List.length_drop, List.length_replicate, hlen]
    omega
  have hin : min L target.length < (target.take L
      ++ (List.replicate (L + 1) 0).drop (target.take L).length).length := by
    rw [hsize]; omega
  have hstore : store_byte
      (target.take L ++ (List.replicate (L + 1) 0).drop (target.take L).length)
      (min L target.length) 0
      = some ((target.take L
          ++ (List.replicate (L + 1) 0).drop (target.take L).length).set
            (min L target.length) 0) := by
    simp only [store_byte, if_pos hin]
  have hdrop : (List.replicate (L + 1) 0).drop (target.take L).length
      = 0 :: List.replicate (L - (target.take L).length) 0 := by
    rw [List.drop_replicate]
    have : L + 1 - (target.take L).length = (L - (target.take L).length) + 1 := by omega
    rw [this, List.replicate_succ]
  have hchecked : get_file_path_from_fd_checked proc fd = some (target.take L) := by
    simp only [get_file_path_from_fd_checked, hrun, hstore]
    rw [← hlen, hdrop, set_length_append]
    rw [c_string_append_zero _ _ (fun b hb => hnul b (List.mem_of_mem_take hb))]
  have hpath : get_file_path_from_fd proc fd = target.take L := by
    simp only [get_file_path_from_fd, hchecked, Option.getD_some]
  refine ⟨_, hrun, hsize, ?_, hle, hin, hstore, hchecked, hpath, hlen, ?_⟩
  · rw [← hlen, List.take_left']
    rfl
  · rw [hpath]
    constructor
    · intro h
      have := congrArg List.length h
      simp only [List.length_take] at this
      omega
    · intro h
      exact List.take_of_length_le h

/-- Claim C16 at a link of target `/home/a` for which `lstat` reports the size 4: the buffer
has 5 bytes, the terminator goes to index 4, and the path returned is `/hom`. -/
theorem get_file_path_from_fd_cut_at_lstat_size_witness :
    (0 : Int) < 5 ∧ proc_short.lstat_size 5 = some 4 ∧
    proc_short.readlink_target 5 = some (ascii "/home/a") ∧
    sys_readlink (some (ascii "/home/a")) 4 ≠ none ∧ (∀ b ∈ ascii "/home/a", b ≠ 0) ∧
    get_file_path_from_fd_run proc_short 5
      = PathRun.reached ⟨ascii "/hom" ++ [0], 4⟩ ∧
    (∃ path : Bytes,
      get_file_path_from_fd_run proc_short 5
        = PathRun.reached ⟨path, min 4 (ascii "/home/a").length⟩ ∧
      path.length = 4 + 1 ∧
      path.take (min 4 (ascii "/home/a").length) = (ascii "/home/a").take 4 ∧
      min 4 (ascii "/home/a").length ≤ 4 ∧
      min 4 (ascii "/home/a").length < path.length ∧
      store_byte path (min 4 (ascii "/home/a").length) 0
        = some (path.set (min 4 (ascii "/home/a").length) 0) ∧
      get_file_path_from_fd_checked proc_short 5 = some ((ascii "/home/a").take 4) ∧
      get_file_path_from_fd proc_short 5 = (ascii "/home/a").take 4 ∧
      ((ascii "/home/a").take 4).length = min 4 (ascii "/home/a").length ∧
      (get_file_path_from_fd proc_short 5 = ascii "/home/a"
        ↔ (ascii "/home/a").length ≤ 4)) ∧
    get_file_path_from_fd proc_short 5 = ascii "/hom" :=
  ⟨by decide, rfl, rfl, by decide, by decide, by decide,
    get_file_path_from_fd_cut_at_lstat_size proc_short 5 4 (ascii "/home/a") (by decide) rfl
      rfl (by decide) (by decide),
    by decide⟩

end Sauvegarde
